import Mathlib

/-
Verification development for the mcp-lock integrity/analysis engine.

Shallow embedding of the core modules:
  * src/utils/hash.ts        (canonical JSON hashing, secureCompare)
  * src/core/capabilities.ts (heuristic capability inference)
  * src/core/lockfile.ts     (lockfile builder and loader)
  * src/core/differ.ts       (drift diffing)
  * src/core/scanner.ts      (scan orchestration, tool shadowing)
  * src/rules/index.ts       (the three config-scope built-in rules)

Modelling conventions:
  * JSON-shaped JavaScript values are the inductive `Json` below; `undefined`
    is a separate constructor because the hash canonicalizer and JS truthiness
    treat it specially.  Numbers are modelled as `Int` (the engine never
    produces fractional numbers; JS integer stringification agrees with
    `Int.toString` on the safe range, and there is no `-0` here).
  * Strings are Lean `String` (unicode scalar values).  JS strings are UTF-16
    code units; for all characters of the Basic Multilingual Plane the two
    agree, and every comparison below is code-pointwise like the JS one.
  * `createHash("sha256")` is external library code (node:crypto), so the hash
    core is modelled as an abstract parameter `sha : String → String`; the
    repository's own code is the canonicalization and the `"sha256:" ++ _`
    framing.  Claims that need two hashes to differ assume `sha` injective
    (collision-freeness, the idealization the design relies on).
  * `async`/`await` connector calls are modelled by passing a pure
    `connector : String → MCPServerConfig → Except String LiveServerInfo`;
    a thrown/timed-out connection is `.error msg`.
  * JS objects (`Record<string, T>`) are association lists in insertion
    order with the JS semantics: lookup finds the (unique) key, assignment
    updates in place or appends, `Object.entries` iterates in order.
-/

namespace MCPLock

/-- JSON-shaped JavaScript value (argument type of `hashValue`). -/
inductive Json where
  | null : Json
  | undefined : Json
  | bool : Bool → Json
  | num : Int → Json
  | str : String → Json
  | arr : List Json → Json
  | obj : List (String × Json) → Json
  deriving Repr

/-- Lowercase hexadecimal digit, as produced by JS number-to-hex formatting. -/
def hexDigit (n : Nat) : Char :=
  if n < 10 then Char.ofNat (48 + n) else Char.ofNat (87 + n)

/-- Escape of one character inside a JSON string literal, exactly as
`JSON.stringify` emits it: `\"`, `\\`, the named control escapes, `\u00xx`
for the remaining control characters, and every other character verbatim. -/
def escapeChar (c : Char) : List Char :=
  if c = '"' then ['\\', '"']
  else if c = '\\' then ['\\', '\\']
  else if c.toNat = 8 then ['\\', 'b']
  else if c.toNat = 9 then ['\\', 't']
  else if c.toNat = 10 then ['\\', 'n']
  else if c.toNat = 12 then ['\\', 'f']
  else if c.toNat = 13 then ['\\', 'r']
  else if c.toNat < 32 then ['\\', 'u', '0', '0', hexDigit (c.toNat / 16), hexDigit (c.toNat % 16)]
  else [c]

/-- JSON string literal for `s`: `JSON.stringify(s)`. -/
def jsonQuote (s : String) : String :=
  ⟨'"' :: (s.data.flatMap escapeChar) ++ ['"']⟩

/-- Code-pointwise lexicographic comparison of character lists.  This is the
order the default `Array.prototype.sort()` comparator induces on the
(BMP) strings sorted by `canonicalize`. -/
def listCharLe : List Char → List Char → Bool
  | [], _ => true
  | _ :: _, [] => false
  | c :: cs, d :: ds =>
    if c.toNat < d.toNat then true
    else if d.toNat < c.toNat then false
    else listCharLe cs ds

/-- String comparison used to model `Object.keys(value).sort()`. -/
def strLe (a b : String) : Bool := listCharLe a.data b.data

/-- Sort relation on (key, canonical value) pairs: by key only, as the
source sorts the key array and then emits each key's value. -/
def keyLe (p q : String × String) : Prop := strLe p.1 q.1 = true

instance : DecidableRel keyLe := fun p q => by unfold keyLe; infer_instance

mutual

/-- Canonical JSON serialization from src/utils/hash.ts (`canonicalize`):
null and undefined both become `null`; booleans/numbers stringify; strings
are JSON-escaped; arrays keep their order; objects emit `"key":value`
pairs sorted by key.  `Object.keys(..).sort()` is modelled by a stable
sort (`List.insertionSort`) on the pairs by key, which agrees with sorting
the key array because stable sorting by key commutes with carrying the
values along. -/
def canonicalize : Json → String
  | .null => "null"
  | .undefined => "null"
  | .bool true => "true"
  | .bool false => "false"
  | .num n => toString n
  | .str s => jsonQuote s
  | .arr xs => "[" ++ String.intercalate "," (canonList xs) ++ "]"
  | .obj fs =>
    "\x7b" ++
      String.intercalate ","
        ((List.insertionSort keyLe (canonPairs fs)).map
          (fun p => jsonQuote p.1 ++ ":" ++ p.2)) ++
    "\x7d"

/-- Canonical forms of a list of array elements, in order. -/
def canonList : List Json → List String
  | [] => []
  | x :: xs => canonicalize x :: canonList xs

/-- Keys paired with the canonical forms of their values, in object order. -/
def canonPairs : List (String × Json) → List (String × String)
  | [] => []
  | p :: ps => (p.1, canonicalize p.2) :: canonPairs ps

end

/-- The `HASH_ALGORITHM` constant from src/utils/constants.ts. -/
def HASH_ALGORITHM : String := "sha256"

/-- The `LOCKFILE_VERSION` constant from src/utils/constants.ts. -/
def LOCKFILE_VERSION : Int := 1

/-- hashValue from src/utils/hash.ts, with the external SHA-256 core
abstracted as `sha`. -/
def hashValue (sha : String → String) (value : Json) : String :=
  HASH_ALGORITHM ++ ":" ++ sha (canonicalize value)

/-- secureCompare from src/utils/hash.ts: length check, then an
XOR-accumulation of the character codes over the full length. -/
def secureCompare (a b : String) : Bool :=
  if a.data.length ≠ b.data.length then false
  else
    ((a.data.zip b.data).foldl (fun m p => m ||| (p.1.toNat ^^^ p.2.toNat)) 0) == 0

/-! ## String utilities shared by the capability inferencer and the rules -/

/-- Class of JS regex word characters (`\w` is exactly `[A-Za-z0-9_]`). -/
def isWordChar (c : Char) : Bool :=
  (97 ≤ c.toNat && c.toNat ≤ 122) || (65 ≤ c.toNat && c.toNat ≤ 90) ||
  (48 ≤ c.toNat && c.toNat ≤ 57) || c = '_'

/-- If `w` is a prefix of `cs`, the remainder after it. -/
def dropPrefixRest : List Char → List Char → Option (List Char)
  | [], rest => some rest
  | _ :: _, [] => none
  | w :: ws, c :: cs => if w = c then dropPrefixRest ws cs else none

/-- Does `w` match at the head of `cs` with a `\b` boundary after it?
(All alternation branches used below start and end in word characters.) -/
def wordMatchesHere (w cs : List Char) : Bool :=
  match dropPrefixRest w cs with
  | some [] => true
  | some (c :: _) => !isWordChar c
  | none => false

/-- Scan for `w` with word boundaries on both sides; `prevW` records whether
the previous character was a word character (the left `\b`). -/
def containsWordAux (w : List Char) (prevW : Bool) : List Char → Bool
  | [] => !prevW && wordMatchesHere w []
  | c :: cs => (!prevW && wordMatchesHere w (c :: cs)) || containsWordAux w (isWordChar c) cs

/-- Test of `/\b(w)\b/` for a single alternation branch `w`. -/
def containsWord (text w : String) : Bool := containsWordAux w.data false text.data

/-- Test of `/\b(w1|w2|...)\b/`: some branch matches with boundaries. -/
def matchAnyWord (text : String) (ws : List String) : Bool :=
  ws.any (fun w => containsWord text w)

/-- ASCII lowercasing, the fragment of `String.prototype.toLowerCase()`
exercised by the engine (all keyword alphabets are ASCII). -/
def lowerStr (s : String) : String := ⟨s.data.map Char.toLower⟩

/-- Plain case-sensitive substring test (`String.prototype.includes`). -/
def containsSub (hay needle : String) : Bool :=
  let rec go (n : List Char) : List Char → Bool
    | [] => (dropPrefixRest n []).isSome
    | c :: cs => (dropPrefixRest n (c :: cs)).isSome || go n cs
  go needle.data hay.data

/-- Case-insensitive alternation test without boundaries, the shape of
`/a|b|c/i.test(s)` for lowercase literal branches. -/
def containsAnyInsens (s : String) (ws : List String) : Bool :=
  ws.any (fun w => containsSub (lowerStr s) w)

/-- Suffix test (`String.prototype.endsWith`). -/
def endsWithStr (s suffixStr : String) : Bool :=
  (dropPrefixRest suffixStr.data.reverse s.data.reverse).isSome

/-- Prefix test (`String.prototype.startsWith`). -/
def startsWithStr (s pre : String) : Bool :=
  (dropPrefixRest pre.data s.data).isSome

/-- First-occurrence deduplication, the semantics of `[...new Set(list)]`. -/
def dedupFirstAux (seen : List String) : List String → List String
  | [] => []
  | x :: xs => if x ∈ seen then dedupFirstAux seen xs else x :: dedupFirstAux (x :: seen) xs

/-- Deduplicate keeping first occurrences (`[...new Set(caps)]`). -/
def dedupFirst (l : List String) : List String := dedupFirstAux [] l

/-! ## Record (JS object / Map) helpers -/

/-- JS object property lookup on an association list with unique keys. -/
def recordGet (l : List (String × α)) (k : String) : Option α :=
  (l.find? (fun p => p.1 == k)).map (fun p => p.2)

/-- JS object property assignment: update in place, else append. -/
def recordSet (l : List (String × α)) (k : String) (v : α) : List (String × α) :=
  match l with
  | [] => [(k, v)]
  | p :: ps => if p.1 == k then (k, v) :: ps else p :: recordSet ps k v

/-- Append `v` to the list at key `k` (Map get-then-push), else add the key. -/
def recordPush (m : List (String × List String)) (k v : String) : List (String × List String) :=
  match m with
  | [] => [(k, [v])]
  | p :: ps => if p.1 == k then (p.1, p.2 ++ [v]) :: ps else p :: recordPush ps k v

/-! ## Capability inference (src/core/capabilities.ts) -/

/-- Property names of a JSON-Schema-like object (`extractPropertyNames`):
the lowercased keys of `schema.properties` when that is a non-array object. -/
def extractPropertyNames (schema : List (String × Json)) : List String :=
  match recordGet schema "properties" with
  | some (.obj props) => props.map (fun p => lowerStr p.1)
  | _ => []

/-- inferCapabilities from src/core/capabilities.ts.  The keyword families are
verbatim from the source regexes; the schema block runs only when an
`inputSchema` argument was passed (`if (inputSchema)`), and the result is
deduplicated preserving first insertion order (`[...new Set(caps)]`). -/
def inferCapabilities (description toolName : String)
    (inputSchema : Option (List (String × Json))) : List String :=
  let text := lowerStr (description ++ " " ++ toolName)
  let keywordCaps :=
    (if matchAnyWord text ["read", "get", "fetch", "load", "open", "view", "list", "search", "find", "glob", "cat"]
      then ["read"] else []) ++
    (if matchAnyWord text ["write", "create", "save", "put", "upload", "append", "edit", "modify", "update", "patch"]
      then ["write"] else []) ++
    (if matchAnyWord text ["delete", "remove", "unlink", "rm", "drop", "destroy", "purge"]
      then ["delete"] else []) ++
    (if matchAnyWord text ["exec", "execute", "run", "spawn", "shell", "bash", "command", "eval", "invoke"]
        || matchAnyWord text ["run python", "run code", "eval js", "shell script", "code execution", "subprocess"]
      then ["execute"] else []) ++
    (if matchAnyWord text ["http", "fetch", "request", "api", "url", "download", "upload", "post", "webhook", "send"]
        || matchAnyWord text ["http request", "web request", "api call"]
      then ["network"] else []) ++
    (if matchAnyWord text ["query", "sql", "database", "db", "insert", "select", "table", "schema"]
        || matchAnyWord text ["prepare statement", "database connection"]
      then ["database"] else []) ++
    (if matchAnyWord text ["secret", "credential", "password", "token", "key", "auth", "certificate", "private"]
      then ["secrets"] else [])
  let schemaCaps :=
    match inputSchema with
    | none => []
    | some schema =>
      (extractPropertyNames schema).flatMap (fun prop =>
        (if prop = "command" ∨ prop = "shell" ∨ prop = "script" ∨ prop = "code"
          then ["execute"] else []) ++
        (if prop = "url" ∨ prop = "endpoint" ∨ prop = "uri" ∨ prop = "webhook"
          then ["network"] else []) ++
        (if prop = "query" ∨ prop = "sql" ∨ prop = "statement" ∨ prop = "table"
          then ["database"] else []) ++
        (if prop = "path" ∨ prop = "file" ∨ prop = "directory" ∨ prop = "filename"
          then "read" ::
            (if matchAnyWord text ["write", "create", "save", "put", "upload", "append", "edit", "modify", "update", "patch"]
              then ["write"] else [])
          else []) ++
        (if prop = "password" ∨ prop = "token" ∨ prop = "secret" ∨ prop = "key" ∨ prop = "credential"
          then ["secrets"] else []))
  dedupFirst (keywordCaps ++ schemaCaps)

/-! ## Data model (src/core/types.ts, src/parsers/types.ts) -/

/-- Live tool data fetched from a server (`LiveTool`). -/
structure LiveTool where
  name : String
  description : Option String
  inputSchema : Option (List (String × Json))
  deriving Repr

/-- Live server metadata from the initialize response (`LiveServerInfo`). -/
structure LiveServerInfo where
  protocolVersion : Option String
  serverName : Option String
  serverVersion : Option String
  tools : List LiveTool
  deriving Repr

/-- One pinned tool (`LockfileTool`). -/
structure LockfileTool where
  descriptionHash : String
  inputSchemaHash : String
  capabilities : List String
  deriving DecidableEq, Repr

/-- One pinned server (`LockfileServer`). -/
structure LockfileServer where
  transport : String
  command : Option String
  args : Option (List String)
  url : Option String
  envVars : Option (List String)
  protocolVersion : Option String
  serverName : Option String
  serverVersion : Option String
  tools : List (String × LockfileTool)
  toolCount : Nat
  deriving DecidableEq, Repr

/-- The persisted baseline (`Lockfile`). -/
structure Lockfile where
  version : Int
  locked : String
  host : String
  client : String
  configPath : String
  servers : List (String × LockfileServer)
  deriving DecidableEq, Repr

/-- Server launch configuration (`MCPServerConfig`). -/
structure MCPServerConfig where
  transport : Option String
  command : Option String
  args : Option (List String)
  url : Option String
  env : Option (List (String × String))
  deriving DecidableEq, Repr

/-- Discovered client configuration (`MCPConfig`). -/
structure MCPConfig where
  client : String
  configPath : String
  servers : List (String × MCPServerConfig)
  deriving DecidableEq, Repr

/-- A connector outcome: tool listing, or the message of the thrown error.
`connectAndListTools` is the external transport collaborator, so diff and
scan runs are parameterized by a pure `connector` function. -/
abbrev Connector := String → MCPServerConfig → Except String LiveServerInfo

/-- JS truthiness of an optional string (`undefined` and `""` are falsy). -/
def jsTruthyS : Option String → Bool
  | none => false
  | some s => s != ""

/-! ## Lockfile builder (src/core/lockfile.ts) -/

/-- The pinned record for one live tool: hashes of the (defaulted)
description and input schema, and capabilities inferred with all three
inputs, as in `buildServerEntry`. -/
def mkLockfileTool (sha : String → String) (t : LiveTool) : LockfileTool :=
  { descriptionHash := hashValue sha (.str (t.description.getD ""))
    inputSchemaHash := hashValue sha (.obj (t.inputSchema.getD []))
    capabilities := inferCapabilities (t.description.getD "") t.name t.inputSchema }

/-- buildServerEntry from src/core/lockfile.ts: pin every observed tool
(`tools[tool.name] = ...` in iteration order) plus the sanitized config
fields and reported server metadata. -/
def buildServerEntry (sha : String → String) (config : MCPServerConfig)
    (info : LiveServerInfo) : LockfileServer :=
  { transport := if jsTruthyS config.transport then config.transport.getD "" else "stdio"
    command := config.command
    args := config.args
    url := config.url
    envVars := config.env.map (fun e => e.map (fun p => p.1))
    protocolVersion := info.protocolVersion
    serverName := info.serverName
    serverVersion := info.serverVersion
    tools := info.tools.foldl (fun acc t => recordSet acc t.name (mkLockfileTool sha t)) []
    toolCount := info.tools.length }

/-! ## Lockfile loading (readLockfile in src/core/lockfile.ts) -/

/-- State of the lockfile path on disk: absent, unparseable JSON, or the
parsed JSON value (before the reviver strips dangerous keys). -/
inductive LockfileFile where
  | missing : LockfileFile
  | content : Option Json → LockfileFile
  deriving Repr

/-- Is this key a prototype-pollution vector stripped by the parse reviver? -/
def isDangerousKey (k : String) : Bool :=
  k == "__proto__" || k == "constructor" || k == "prototype"

mutual

/-- Effect of the `JSON.parse` reviver that returns `undefined` for
`__proto__`, `constructor` and `prototype` keys: those properties are
removed from every object, recursively. -/
def stripJson : Json → Json
  | .obj fs => .obj (stripPairs fs)
  | .arr xs => .arr (stripList xs)
  | v => v

/-- Strip dangerous keys inside each element of an array. -/
def stripList : List Json → List Json
  | [] => []
  | x :: xs => stripJson x :: stripList xs

/-- Drop dangerous keys and strip inside the surviving values. -/
def stripPairs : List (String × Json) → List (String × Json)
  | [] => []
  | p :: ps =>
    if isDangerousKey p.1 then stripPairs ps
    else (p.1, stripJson p.2) :: stripPairs ps

end

/-- JS `typeof` for JSON-shaped values. -/
def jsTypeof : Json → String
  | .null => "object"
  | .undefined => "undefined"
  | .bool _ => "boolean"
  | .num _ => "number"
  | .str _ => "string"
  | .arr _ => "object"
  | .obj _ => "object"

/-- JS falsiness for JSON-shaped values. -/
def jsFalsy : Json → Bool
  | .null => true
  | .undefined => true
  | .bool b => !b
  | .num n => n == 0
  | .str s => s == ""
  | .arr _ => false
  | .obj _ => false

/-- JS property read `v[k]`: `undefined` unless `v` is an object with `k`. -/
def jsGet (v : Json) (k : String) : Json :=
  match v with
  | .obj fs => (recordGet fs k).getD .undefined
  | _ => .undefined

/-- `Array.isArray`. -/
def jsIsArray : Json → Bool
  | .arr _ => true
  | _ => false

/-- readLockfile from src/core/lockfile.ts.  `.ok none` is the shared
"missing or invalid, caller may re-pin" outcome (the function returns
`null` in both cases); `.error msg` is the hard unsupported-version error
rethrown past the catch; `.ok (some v)` is a loaded baseline (kept as the
stripped JSON value). -/
def readLockfile (file : LockfileFile) : Except String (Option Json) :=
  match file with
  | .missing => .ok none
  | .content none => .ok none
  | .content (some raw) =>
    let parsed := stripJson raw
    if jsFalsy parsed then .ok none
    else if jsTypeof parsed != "object" then .ok none
    else if jsTypeof (jsGet parsed "version") != "number" then .ok none
    else if jsTypeof (jsGet parsed "servers") != "object" then .ok none
    else if jsIsArray (jsGet parsed "servers") then .ok none
    else
      match jsGet parsed "version" with
      | .num v =>
        if LOCKFILE_VERSION < v then
          .error ("Lockfile version " ++ toString v ++ " is newer than supported (" ++
            toString LOCKFILE_VERSION ++ "). Please upgrade mcp-lock.")
        else .ok (some parsed)
      | _ => .ok none

/-! ## Drift differ (src/core/differ.ts) -/

/-- Diff severities (`DiffSeverity`). -/
inductive DiffSeverity where
  | info | warning | critical
  deriving DecidableEq, Repr

/-- The closed taxonomy of change types of a `DiffEntry`. -/
inductive DiffType where
  | serverAdded | serverRemoved | toolAdded | toolRemoved
  | descriptionChanged | schemaChanged | capabilityChanged
  | versionChanged | toolCountChanged
  deriving DecidableEq, Repr

/-- One drift record (`DiffEntry`). -/
structure DiffEntry where
  server : String
  tool : Option String
  type : DiffType
  severity : DiffSeverity
  detail : String
  oldValue : Option String
  newValue : Option String
  deriving DecidableEq, Repr

/-- Severity tallies of a diff (`DiffResult.summary`). -/
structure DiffSummary where
  critical : Nat
  warning : Nat
  info : Nat
  deriving DecidableEq, Repr

/-- Result of a diff run (`DiffResult`). -/
structure DiffResult where
  drifted : Bool
  entries : List DiffEntry
  summary : DiffSummary
  deriving DecidableEq, Repr

/-- Lookup in `new Map(live.tools.map(t => [t.name, t]))`: on duplicate
names the later entry wins, as in Map construction. -/
def mapGetLast (ts : List LiveTool) (n : String) : Option LiveTool :=
  ts.foldl (fun acc t => if t.name == n then some t else acc) none

/-- The capability set the differ recomputes for a live tool: note the
call site `inferCapabilities(liveTool.description || "", toolName)` passes
no input schema. -/
def diffLiveCapabilities (toolName : String) (t : LiveTool) : List String :=
  inferCapabilities (t.description.getD "") toolName none

/-- diffServerTools from src/core/differ.ts, producing the entries pushed
for one server in push order: version change, tool-count change, removed
tools, added tools, then per-pinned-tool drift checks. -/
def diffServerTools (sha : String → String) (serverName : String)
    (locked : LockfileServer) (live : LiveServerInfo) : List DiffEntry :=
  let versionEntries :=
    if jsTruthyS locked.serverVersion && jsTruthyS live.serverVersion &&
        (locked.serverVersion != live.serverVersion) then
      [{ server := serverName, tool := none, type := .versionChanged, severity := .info
         detail := "Server version changed"
         oldValue := locked.serverVersion, newValue := live.serverVersion }]
    else []
  let countEntries :=
    if locked.toolCount != live.tools.length then
      [{ server := serverName, tool := none, type := .toolCountChanged, severity := .warning
         detail := "Tool count changed from " ++ toString locked.toolCount ++ " to " ++
           toString live.tools.length
         oldValue := some (toString locked.toolCount)
         newValue := some (toString live.tools.length) }]
    else []
  let removedEntries :=
    locked.tools.filterMap (fun p =>
      if (mapGetLast live.tools p.1).isNone then
        some { server := serverName, tool := some p.1, type := .toolRemoved, severity := .warning
               detail := "Tool \"" ++ p.1 ++ "\" was removed"
               oldValue := none, newValue := none }
      else none)
  let addedEntries :=
    live.tools.filterMap (fun t =>
      if (recordGet locked.tools t.name).isNone then
        some { server := serverName, tool := some t.name, type := .toolAdded, severity := .warning
               detail := "New tool \"" ++ t.name ++ "\" appeared"
               oldValue := none, newValue := none }
      else none)
  let driftEntries :=
    locked.tools.flatMap (fun p =>
      match mapGetLast live.tools p.1 with
      | none => []
      | some liveTool =>
        let liveDescHash := hashValue sha (.str (liveTool.description.getD ""))
        let liveSchemaHash := hashValue sha (.obj (liveTool.inputSchema.getD []))
        let liveCaps := diffLiveCapabilities p.1 liveTool
        (if p.2.descriptionHash != liveDescHash then
          [{ server := serverName, tool := some p.1, type := .descriptionChanged
             severity := .critical
             detail := "Tool description changed (possible tool poisoning)"
             oldValue := some p.2.descriptionHash, newValue := some liveDescHash }]
        else []) ++
        (if p.2.inputSchemaHash != liveSchemaHash then
          [{ server := serverName, tool := some p.1, type := .schemaChanged, severity := .warning
             detail := "Input schema changed"
             oldValue := some p.2.inputSchemaHash, newValue := some liveSchemaHash }]
        else []) ++
        (let newCaps := liveCaps.filter (fun c => !(p.2.capabilities.contains c))
         if 0 < newCaps.length then
          [{ server := serverName, tool := some p.1, type := .capabilityChanged
             severity := .critical
             detail := "New capabilities detected: " ++ String.intercalate ", " newCaps
             oldValue := some (String.intercalate ", " p.2.capabilities)
             newValue := some (String.intercalate ", " liveCaps) }]
         else []))
  versionEntries ++ countEntries ++ removedEntries ++ addedEntries ++ driftEntries

/-- computeDiff from src/core/differ.ts: removed servers, added servers,
then for each pinned server still configured (when `connect`) the
connector call followed by `diffServerTools`, a failure becoming one
(server, error) pair.  The per-server loop is rendered as a map over the
pinned servers with the entry and error streams concatenated in loop
order. -/
def computeDiff (sha : String → String) (connector : Connector)
    (lockfile : Lockfile) (config : MCPConfig) (connect : Bool) :
    DiffResult × List (String × String) :=
  let removedEntries :=
    lockfile.servers.filterMap (fun p =>
      if (recordGet config.servers p.1).isNone then
        some { server := p.1, tool := none, type := .serverRemoved, severity := .warning
               detail := "Server \"" ++ p.1 ++ "\" was removed from config"
               oldValue := none, newValue := none }
      else none)
  let addedEntries :=
    config.servers.filterMap (fun p =>
      if (recordGet lockfile.servers p.1).isNone then
        some { server := p.1, tool := none, type := .serverAdded, severity := .warning
               detail := "Server \"" ++ p.1 ++ "\" was added to config (not pinned)"
               oldValue := none, newValue := none }
      else none)
  let perServer :=
    lockfile.servers.map (fun p =>
      match recordGet config.servers p.1 with
      | none => (([] : List DiffEntry), ([] : List (String × String)))
      | some currentConfig =>
        if connect then
          match connector p.1 currentConfig with
          | .ok liveInfo => (diffServerTools sha p.1 p.2 liveInfo, [])
          | .error e => ([], [(p.1, e)])
        else ([], []))
  let entries := removedEntries ++ addedEntries ++ (perServer.map (fun q => q.1)).flatten
  let errors := (perServer.map (fun q => q.2)).flatten
  ({ drifted := decide (0 < entries.length)
     entries := entries
     summary :=
       { critical := (entries.filter (fun e => e.severity == .critical)).length
         warning := (entries.filter (fun e => e.severity == .warning)).length
         info := (entries.filter (fun e => e.severity == .info)).length } },
   errors)

/-! ## Rule engine and scanner (src/rules/index.ts, src/core/scanner.ts) -/

/-- Finding severities (`FindingSeverity`), a scale distinct from diff
severities. -/
inductive FindingSeverity where
  | low | medium | high | critical
  deriving DecidableEq, Repr

/-- One scan finding (`ScanFinding`). -/
structure ScanFinding where
  ruleId : String
  severity : FindingSeverity
  server : String
  tool : Option String
  title : String
  detail : String
  remediation : Option String
  deriving DecidableEq, Repr

/-- Rule scopes: config rules need no connection, tool rules do. -/
inductive RuleScope where
  | config | tool
  deriving DecidableEq, Repr

/-- Evaluation context handed to a rule (`RuleContext`). -/
structure RuleContext where
  serverName : String
  config : MCPServerConfig
  tool : Option LiveTool
  capabilities : Option (List String)

/-- A rule: id, scope and a pure check (`Rule`).  `none` models the
`null` result; `some []` (an empty but truthy findings array) adds
nothing, like the source's `if (result) findings.push(...result)`. -/
structure Rule where
  id : String
  scope : RuleScope
  check : RuleContext → Option (List ScanFinding)

/-- Position of a severity in `["low", "medium", "high", "critical"]`. -/
def severityIdx : FindingSeverity → Nat
  | .low => 0
  | .medium => 1
  | .high => 2
  | .critical => 3

/-- The minimum-severity filter applied before findings are returned. -/
def severityFilter (minSeverity : FindingSeverity) (fs : List ScanFinding) : List ScanFinding :=
  fs.filter (fun f => severityIdx minSeverity ≤ severityIdx f.severity)

/-- The `no-auth` built-in rule: remote transport, no auth-looking
environment variable name, non-loopback URL. -/
def noAuthRule : Rule :=
  { id := "no-auth", scope := .config
    check := fun ctx =>
      if ctx.config.transport == some "sse" || ctx.config.transport == some "streamable-http" then
        let url := ctx.config.url.getD ""
        let hasAuth :=
          match ctx.config.env with
          | none => false
          | some env => env.any (fun e => containsAnyInsens e.1 ["auth", "token", "key", "secret", "bearer"])
        if !hasAuth && !containsSub url "localhost" && !containsSub url "127.0.0.1" then
          some [{ ruleId := "no-auth", severity := .high, server := ctx.serverName, tool := none
                  title := "No authentication configured for remote server"
                  detail := "HTTP server \"" ++ ctx.serverName ++
                    "\" has no auth-related environment variables. Remote MCP servers should require authentication."
                  remediation := some "Add an API key or token via environment variables (e.g., MCP_API_KEY)." }]
        else none
      else none }

/-- The `unsafe-stdio` built-in rule: a raw shell as the launch command. -/
def unsafeStdioRule : Rule :=
  { id := "unsafe-stdio", scope := .config
    check := fun ctx =>
      match ctx.config.command with
      | none => none
      | some cmdRaw =>
        if cmdRaw == "" then none
        else
          let cmd := lowerStr cmdRaw
          if ["sh", "bash", "zsh", "cmd", "powershell", "pwsh"].any
              (fun d => cmd == d || endsWithStr cmd ("/" ++ d)) then
            some [{ ruleId := "unsafe-stdio", severity := .critical, server := ctx.serverName, tool := none
                    title := "Direct shell as MCP server command"
                    detail := "Server \"" ++ ctx.serverName ++ "\" uses a shell (" ++ cmdRaw ++
                      ") as its command. This is extremely dangerous — the shell can execute arbitrary commands."
                    remediation := some "Use a specific executable (e.g., node, python, npx) instead of a raw shell." }]
          else none }

/-- The `exposed-secrets` built-in rule: secret-looking env keys whose
values are not environment-variable references. -/
def exposedSecretsRule : Rule :=
  { id := "exposed-secrets", scope := .config
    check := fun ctx =>
      match ctx.config.env with
      | none => none
      | some env =>
        let fs := env.filterMap (fun kv =>
          if containsAnyInsens kv.1 ["password", "secret", "private_key", "api_key", "token"] &&
              kv.2 != "" && !startsWithStr kv.2 "$\x7b" && !startsWithStr kv.2 "$" then
            some { ruleId := "exposed-secrets", severity := FindingSeverity.critical
                   server := ctx.serverName, tool := none
                   title := "Hardcoded secret in config: " ++ kv.1
                   detail := "Environment variable \"" ++ kv.1 ++
                     "\" appears to contain a hardcoded secret rather than an environment variable reference."
                   remediation := some ("Use an environment variable reference: \"" ++ kv.1 ++
                     "\": \"$\x7b" ++ kv.1 ++ "\x7d\" or set it in your shell environment.") }
          else none)
        if 0 < fs.length then some fs else none }

/-- The config-scope built-in rules of src/rules/index.ts.  (The five
tool-scope built-ins are never invoked in the runs the claims below
examine; `runScan` is parameterized by the rule list, exactly as the
source merges `RULES` with custom rules.) -/
def builtinConfigRules : List Rule := [noAuthRule, unsafeStdioRule, exposedSecretsRule]

/-- Findings of the config-scope pass for one server. -/
def configRuleFindings (rules : List Rule) (name : String) (cfg : MCPServerConfig) :
    List ScanFinding :=
  rules.flatMap (fun r =>
    if r.scope == .config then
      (r.check { serverName := name, config := cfg, tool := none, capabilities := none }).getD []
    else [])

/-- The capability list the scanner passes to tool rules: description,
name and input schema (matching `buildServerEntry`). -/
def scanToolCapabilities (t : LiveTool) : List String :=
  inferCapabilities (t.description.getD "") t.name t.inputSchema

/-- Findings of the tool-scope pass for one tool. -/
def toolRuleFindings (rules : List Rule) (name : String) (cfg : MCPServerConfig)
    (t : LiveTool) : List ScanFinding :=
  rules.flatMap (fun r =>
    if r.scope == .tool then
      (r.check { serverName := name, config := cfg, tool := some t,
                 capabilities := some (scanToolCapabilities t) }).getD []
    else [])

/-- All findings contributed by one configured server: config rules run
unconditionally, tool rules only after a successful connection. -/
def serverFindings (rules : List Rule) (connector : Connector)
    (p : String × MCPServerConfig) : List ScanFinding :=
  configRuleFindings rules p.1 p.2 ++
    (match connector p.1 p.2 with
     | .ok info => info.tools.flatMap (fun t => toolRuleFindings rules p.1 p.2 t)
     | .error _ => [])

/-- The (server, error) pair contributed by one configured server. -/
def serverError (connector : Connector) (p : String × MCPServerConfig) :
    List (String × String) :=
  match connector p.1 p.2 with
  | .ok _ => []
  | .error e => [(p.1, e)]

/-- Register one server's tool names into the shadowing multimap. -/
def registerServer (connector : Connector) (m : List (String × List String))
    (p : String × MCPServerConfig) : List (String × List String) :=
  match connector p.1 p.2 with
  | .ok info => info.tools.foldl (fun acc t => recordPush acc t.name p.1) m
  | .error _ => m

/-- The `tool-shadowing` finding for a name and its claimant servers. -/
def mkShadowFinding (toolName : String) (servers : List String) : ScanFinding :=
  { ruleId := "tool-shadowing", severity := .high
    server := String.intercalate ", " servers
    tool := some toolName
    title := "Tool name \"" ++ toolName ++ "\" appears in multiple servers"
    detail := "Tool \"" ++ toolName ++ "\" is defined by " ++ toString servers.length ++
      " servers: " ++ String.intercalate ", " servers ++
      ". A malicious server could shadow a legitimate tool, intercepting calls meant for the original."
    remediation := some "Ensure each tool name is unique across all MCP servers. Remove or rename the duplicate tool in the less-trusted server." }

/-- Severity tallies of a scan (`ScanResult.summary`). -/
structure ScanSummary where
  low : Nat
  medium : Nat
  high : Nat
  critical : Nat
  deriving DecidableEq, Repr

/-- Result of a scan run (`ScanResult`). -/
structure ScanResult where
  findings : List ScanFinding
  serversScanned : Nat
  toolsScanned : Nat
  summary : ScanSummary
  deriving DecidableEq, Repr

/-- runScan from src/core/scanner.ts.  The per-server loop threads four
accumulators (findings, errors, tool count, shadowing map); since each
server's contribution to the first three is independent, the loop is
rendered as per-server contributions concatenated in loop order, plus the
left fold that builds the shadowing map.  After the loop: one
`tool-shadowing` finding per multiply-claimed name (map iteration order),
then the minimum-severity filter and the summary of the filtered
findings. -/
def runScan (rules : List Rule) (connector : Connector) (config : MCPConfig)
    (minSeverity : FindingSeverity) : ScanResult × List (String × String) :=
  let findings := config.servers.flatMap (serverFindings rules connector)
  let errors := config.servers.flatMap (serverError connector)
  let toolsScanned :=
    (config.servers.map (fun p =>
      match connector p.1 p.2 with
      | .ok info => info.tools.length
      | .error _ => 0)).sum
  let nameMap := config.servers.foldl (registerServer connector) []
  let shadow := nameMap.filterMap (fun p =>
    if 1 < p.2.length then some (mkShadowFinding p.1 p.2) else none)
  let filtered := severityFilter minSeverity (findings ++ shadow)
  ({ findings := filtered
     serversScanned := config.servers.length
     toolsScanned := toolsScanned
     summary :=
       { low := (filtered.filter (fun f => f.severity == .low)).length
         medium := (filtered.filter (fun f => f.severity == .medium)).length
         high := (filtered.filter (fun f => f.severity == .high)).length
         critical := (filtered.filter (fun f => f.severity == .critical)).length } },
   errors)

/-- The servers that successfully list a tool named `name` in this run, in
configuration order — the reference reading of the shadowing multimap. -/
def claimants (connector : Connector) (config : MCPConfig) (name : String) : List String :=
  config.servers.filterMap (fun p =>
    match connector p.1 p.2 with
    | .ok info => if info.tools.any (fun t => t.name == name) then some p.1 else none
    | .error _ => none)

/-! ## Specification-side definitions used to state the claims -/

mutual

/-- Structural equality of JSON values up to object key order, with `null`
and `undefined` identified — the equivalence for which the spec asserts
hash stability.  An object matches when its pairs are pointwise related
(same key, related value) to a permutation of the other object's pairs. -/
inductive StructEq : Json → Json → Prop where
  | nulls : ∀ a b : Json, (a = .null ∨ a = .undefined) → (b = .null ∨ b = .undefined) →
      StructEq a b
  | bool : ∀ b : Bool, StructEq (.bool b) (.bool b)
  | num : ∀ n : Int, StructEq (.num n) (.num n)
  | str : ∀ s : String, StructEq (.str s) (.str s)
  | arr : ∀ xs ys : List Json, StructEqList xs ys → StructEq (.arr xs) (.arr ys)
  | obj : ∀ (fs mid gs : List (String × Json)), StructEqPairs fs mid → mid.Perm gs →
      StructEq (.obj fs) (.obj gs)

/-- Pointwise structural equality of element lists (array order matters). -/
inductive StructEqList : List Json → List Json → Prop where
  | nil : StructEqList [] []
  | cons : ∀ x y xs ys, StructEq x y → StructEqList xs ys → StructEqList (x :: xs) (y :: ys)

/-- Pointwise key-preserving structural equality of pair lists. -/
inductive StructEqPairs : List (String × Json) → List (String × Json) → Prop where
  | nil : StructEqPairs [] []
  | cons : ∀ p q ps qs, p.1 = q.1 → StructEq p.2 q.2 → StructEqPairs ps qs →
      StructEqPairs (p :: ps) (q :: qs)

end

mutual

/-- Well-formedness of a JSON value as an image of a JS object graph:
every object has pairwise-distinct keys (JS objects cannot repeat keys). -/
def wfJson : Json → Bool
  | .obj fs => decide ((fs.map Prod.fst).Nodup) && wfPairsVals fs
  | .arr xs => wfList xs
  | _ => true

/-- Well-formedness of every array element. -/
def wfList : List Json → Bool
  | [] => true
  | x :: xs => wfJson x && wfList xs

/-- Well-formedness of every object value. -/
def wfPairsVals : List (String × Json) → Bool
  | [] => true
  | p :: ps => wfJson p.2 && wfPairsVals ps

end

mutual

/-- No object anywhere in the value carries a prototype-pollution key —
what the parse reviver of `readLockfile` is required to guarantee. -/
def noBannedKeys : Json → Bool
  | .obj fs => noBannedKeysPairs fs
  | .arr xs => noBannedKeysList xs
  | _ => true

/-- `noBannedKeys` over array elements. -/
def noBannedKeysList : List Json → Bool
  | [] => true
  | x :: xs => noBannedKeys x && noBannedKeysList xs

/-- `noBannedKeys` over object pairs. -/
def noBannedKeysPairs : List (String × Json) → Bool
  | [] => true
  | p :: ps => !isDangerousKey p.1 && noBannedKeys p.2 && noBannedKeysPairs ps

end

/-- The structural validation readLockfile performs after parsing: truthy
object whose `version` is a number and whose `servers` has JS type
"object" and is not an array. -/
def lockfileStructOk (p : Json) : Bool :=
  !jsFalsy p && (jsTypeof p == "object") && (jsTypeof (jsGet p "version") == "number") &&
    (jsTypeof (jsGet p "servers") == "object") && !jsIsArray (jsGet p "servers")

/-- The numeric `version` field of a parsed lockfile, when it is a number. -/
def lockfileVersionOf (p : Json) : Option Int :=
  match jsGet p "version" with
  | .num v => some v
  | _ => none

instance : IsTotal (String × String) keyLe :=
  ⟨by
    have key : ∀ a b : List Char, listCharLe a b = true ∨ listCharLe b a = true := by
      intro a
      induction a with
      | nil => intro b; left; rfl
      | cons c cs ih =>
        intro b
        cases b with
        | nil => right; rfl
        | cons d ds =>
          by_cases h1 : c.toNat < d.toNat
          · left; simp [listCharLe, h1]
          · by_cases h2 : d.toNat < c.toNat
            · right; simp [listCharLe, h2]
            · rcases ih ds with h | h
              · left; simp [listCharLe, h1, h2, h]
              · right; simp [listCharLe, h1, h2, h]
    intro p q
    rcases key p.1.data q.1.data with h | h
    · exact Or.inl h
    · exact Or.inr h⟩

instance : IsTrans (String × String) keyLe :=
  ⟨by
    have key : ∀ a b c : List Char, listCharLe a b = true → listCharLe b c = true →
        listCharLe a c = true := by
      intro a
      induction a with
      | nil => intro b c _ _; rfl
      | cons x xs ih =>
        intro b c hab hbc
        cases b with
        | nil => simp [listCharLe] at hab
        | cons y ys =>
          cases c with
          | nil => simp [listCharLe] at hbc
          | cons z zs =>
            simp only [listCharLe] at hab hbc ⊢
            by_cases hxy : x.toNat < y.toNat
            · by_cases hyz : y.toNat < z.toNat
              · simp [Nat.lt_trans hxy hyz]
              · by_cases hzy : z.toNat < y.toNat
                · simp [hyz, hzy] at hbc
                · have : y.toNat = z.toNat := Nat.le_antisymm (Nat.le_of_not_lt hzy) (Nat.le_of_not_lt hyz)
                  simp [this ▸ hxy]
            · by_cases hyx : y.toNat < x.toNat
              · simp [hxy, hyx] at hab
              · have hxy2 : x.toNat = y.toNat := Nat.le_antisymm (Nat.le_of_not_lt hyx) (Nat.le_of_not_lt hxy)
                by_cases hyz : y.toNat < z.toNat
                · simp [hxy2 ▸ hyz]
                · by_cases hzy : z.toNat < y.toNat
                  · simp [hyz, hzy] at hbc
                  · have hyz2 : y.toNat = z.toNat := Nat.le_antisymm (Nat.le_of_not_lt hzy) (Nat.le_of_not_lt hyz)
                    simp only [hxy2, hyz2, Nat.lt_irrefl, if_false]
                    simp only [hxy, hxy2, hyz2, if_neg (Nat.lt_irrefl _)] at hab hbc
                    exact ih ys zs hab hbc
    intro p q r hpq hqr
    exact key p.1.data q.1.data r.1.data hpq hqr⟩

/-! # Theorems -/

/-! ## General helper lemmas -/

theorem natLor_eq_zero {a b : Nat} (h : a ||| b = 0) : a = 0 ∧ b = 0 := by
  have key : ∀ i, a.testBit i = false ∧ b.testBit i = false := by
    intro i
    have := congrArg (fun x => Nat.testBit x i) h
    simp only [Nat.testBit_lor, Nat.zero_testBit, Bool.or_eq_false_iff] at this
    exact this
  exact ⟨Nat.eq_of_testBit_eq (fun i => by simp [(key i).1, Nat.zero_testBit]),
         Nat.eq_of_testBit_eq (fun i => by simp [(key i).2, Nat.zero_testBit])⟩

theorem charToNat_inj {c d : Char} (h : c.toNat = d.toNat) : c = d := by
  cases c with | mk v hv =>
  cases d with | mk w hw =>
  simp only [Char.toNat] at h
  cases UInt32.ext h
  rfl

theorem xorFold_eq_zero (l : List (Char × Char)) (m : Nat) :
    (l.foldl (fun acc p => acc ||| (p.1.toNat ^^^ p.2.toNat)) m = 0) ↔
      (m = 0 ∧ ∀ p ∈ l, p.1 = p.2) := by
  induction l generalizing m with
  | nil => simp
  | cons p l ih =>
    simp only [List.foldl_cons, ih, List.mem_cons]
    constructor
    · rintro ⟨h0, hall⟩
      obtain ⟨hm, hx⟩ := natLor_eq_zero h0
      refine ⟨hm, ?_⟩
      rintro q (rfl | hq)
      · exact charToNat_inj (Nat.xor_eq_zero.mp hx)
      · exact hall q hq
    · rintro ⟨rfl, hall⟩
      have hp : p.1 = p.2 := hall p (Or.inl rfl)
      refine ⟨?_, fun q hq => hall q (Or.inr hq)⟩
      simp [hp, Nat.xor_self]

theorem listChar_eq_of_zip (a : List Char) : ∀ b : List Char, a.length = b.length →
    (∀ p ∈ a.zip b, p.1 = p.2) → a = b := by
  induction a with
  | nil => intro b hlen _; cases b <;> simp_all
  | cons c cs ih =>
    intro b hlen hall
    cases b with
    | nil => simp at hlen
    | cons d ds =>
      have hcd : c = d := hall (c, d) (by simp [List.zip_cons_cons])
      have : cs = ds := ih ds (by simpa using hlen)
        (fun p hp => hall p (by simp [List.zip_cons_cons, hp]))
      simp [hcd, this]

theorem mem_zip_self {l : List Char} : ∀ p ∈ l.zip l, p.1 = p.2 := by
  induction l with
  | nil => simp
  | cons c cs ih =>
    intro p hp
    rcases (List.mem_cons).mp (by simpa [List.zip_cons_cons] using hp) with h | h
    · simp [h]
    · exact ih p h

theorem secureCompare_iff (a b : String) : secureCompare a b = true ↔ a = b := by
  unfold secureCompare
  by_cases hlen : a.data.length = b.data.length
  · simp only [hlen, ne_eq, not_true_eq_false, ite_false, beq_iff_eq]
    rw [xorFold_eq_zero]
    constructor
    · rintro ⟨-, hall⟩
      exact String.ext (listChar_eq_of_zip a.data b.data hlen hall)
    · intro h
      subst h
      exact ⟨rfl, mem_zip_self⟩
  · rw [if_pos hlen]
    constructor
    · intro h; cases h
    · intro h; subst h; exact absurd rfl hlen

/-- Claim C9 (code_bug): the spec requires every hash-to-hash equality
check — in particular the descriptionHash/inputSchemaHash comparisons in
the drift differ — to go through `secureCompare`.  The differ instead uses
plain `!==`; `secureCompare` has no call site in the repository.  The
theorem records that `secureCompare` decides exactly string equality, so
the embedding of the differ (which mirrors the source's plain comparison)
is extensionally the comparison the spec demanded — the violated part of
the claim is the timing-channel discipline, which is not semantically
visible. -/
theorem claim_C9_secureCompare :
    (∀ a b : String, secureCompare a b = true ↔ a = b) ∧
    (∀ a b : String, secureCompare a b = (a == b)) := by
  refine ⟨secureCompare_iff, fun a b => ?_⟩
  by_cases h : a = b
  · subst h
    simp [(secureCompare_iff a a).mpr rfl]
  · have hsc : ¬ secureCompare a b = true := fun hc => h ((secureCompare_iff a b).mp hc)
    have hbeq : (a == b) = false := beq_false_of_ne h
    rw [Bool.eq_false_iff.mpr hsc, hbeq]

/-! ## Association-list lemmas -/

theorem recordGet_eq_none {l : List (String × α)} {k : String} :
    recordGet l k = none ↔ ∀ p ∈ l, p.1 ≠ k := by
  unfold recordGet
  rw [Option.map_eq_none', List.find?_eq_none]
  simp

theorem recordGet_mem {l : List (String × α)} {k : String} {v : α}
    (h : recordGet l k = some v) : (k, v) ∈ l := by
  unfold recordGet at h
  cases hf : l.find? (fun p => p.1 == k) with
  | none => rw [hf] at h; cases h
  | some p =>
    rw [hf] at h
    have hp : p ∈ l := List.mem_of_find?_eq_some hf
    have hk : p.1 = k := by have := List.find?_some hf; simpa using this
    cases h
    have : (k, p.2) = p := by
      cases p
      simp_all
    rw [this]
    exact hp

theorem recordGet_isSome_of_mem {l : List (String × α)} {p : String × α} (hp : p ∈ l) :
    ∃ v, recordGet l p.1 = some v := by
  unfold recordGet
  cases hf : l.find? (fun q => q.1 == p.1) with
  | none =>
    rw [List.find?_eq_none] at hf
    exact absurd (by simp) (hf p hp)
  | some q => exact ⟨q.2, rfl⟩

/-! ## Claim C10: connect = false diffs only server membership -/

/-- Claim C10 (confirmed): with `connect = false`, `computeDiff` can only
produce server-added and server-removed entries, and when the baseline and
the configuration hold exactly the same server names, the diff is empty
and `drifted` is `false` no matter what the servers' tools look like. -/
theorem claim_C10_connect_false (sha : String → String) (connector : Connector)
    (lockfile : Lockfile) (config : MCPConfig) :
    (∀ e ∈ (computeDiff sha connector lockfile config false).1.entries,
        e.type = DiffType.serverAdded ∨ e.type = DiffType.serverRemoved) ∧
    ((∀ p ∈ lockfile.servers, ∃ c, recordGet config.servers p.1 = some c) →
     (∀ p ∈ config.servers, ∃ s, recordGet lockfile.servers p.1 = some s) →
     (computeDiff sha connector lockfile config false).1.drifted = false ∧
       (computeDiff sha connector lockfile config false).1.entries = []) := by
  have hflat :
      ((lockfile.servers.map (fun p =>
        match recordGet config.servers p.1 with
        | none => (([] : List DiffEntry), ([] : List (String × String)))
        | some currentConfig =>
          if false then
            match connector p.1 currentConfig with
            | .ok liveInfo => (diffServerTools sha p.1 p.2 liveInfo, [])
            | .error e => ([], [(p.1, e)])
          else ([], []))).map (fun q => q.1)).flatten = [] := by
    rw [List.flatten_eq_nil_iff]
    intro l hl
    simp only [List.mem_map] at hl
    obtain ⟨q, ⟨p, _, rfl⟩, rfl⟩ := hl
    cases recordGet config.servers p.1 <;> simp
  constructor
  · intro e he
    simp only [computeDiff] at he
    rw [hflat, List.append_nil] at he
    rcases List.mem_append.mp he with h | h
    · obtain ⟨p, _, hp⟩ := List.mem_filterMap.mp h
      by_cases hc : (recordGet config.servers p.1).isNone
      · simp only [hc, if_true] at hp
        cases hp
        exact Or.inr rfl
      · simp [hc] at hp
    · obtain ⟨p, _, hp⟩ := List.mem_filterMap.mp h
      by_cases hc : (recordGet lockfile.servers p.1).isNone
      · simp only [hc, if_true] at hp
        cases hp
        exact Or.inl rfl
      · simp [hc] at hp
  · intro hls hcs
    have hent : (computeDiff sha connector lockfile config false).1.entries = [] := by
      simp only [computeDiff]
      rw [hflat, List.append_nil]
      refine (List.append_eq_nil).mpr ⟨?_, ?_⟩
      · rw [List.filterMap_eq_nil_iff]
        intro p hp
        obtain ⟨c, hc⟩ := hls p hp
        simp [hc]
      · rw [List.filterMap_eq_nil_iff]
        intro p hp
        obtain ⟨s, hs⟩ := hcs p hp
        simp [hs]
    refine ⟨?_, hent⟩
    have hdr : (computeDiff sha connector lockfile config false).1.drifted =
        decide (0 < (computeDiff sha connector lockfile config false).1.entries.length) := rfl
    rw [hdr, hent]
    rfl

/-- Witness for claim C10 at a one-server baseline/config pair whose
connector would fail if it were ever consulted. -/
theorem claim_C10_connect_false_witness :
    (computeDiff id (fun _ _ => Except.error "down")
      ⟨1, "", "", "", "",
        [("a", ⟨"stdio", some "node", none, none, none, none, none, none,
                [("t", ⟨"sha256:x", "sha256:y", []⟩)], 1⟩)]⟩
      ⟨"c", "p", [("a", ⟨some "stdio", some "node", none, none, none⟩)]⟩
      false).1.drifted = false ∧
    (computeDiff id (fun _ _ => Except.error "down")
      ⟨1, "", "", "", "",
        [("a", ⟨"stdio", some "node", none, none, none, none, none, none,
                [("t", ⟨"sha256:x", "sha256:y", []⟩)], 1⟩)]⟩
      ⟨"c", "p", [("a", ⟨some "stdio", some "node", none, none, none⟩)]⟩
      false).1.entries = [] :=
  (claim_C10_connect_false id (fun _ _ => Except.error "down") _ _).2
    (by
      intro p hp
      rcases List.mem_singleton.mp hp with rfl
      exact ⟨_, rfl⟩)
    (by
      intro p hp
      rcases List.mem_singleton.mp hp with rfl
      exact ⟨_, rfl⟩)

/-! ## Capability-inference lemmas -/

theorem mem_dedupFirstAux {x : String} :
    ∀ (seen l : List String), x ∈ dedupFirstAux seen l ↔ (x ∈ l ∧ x ∉ seen) := by
  intro seen l
  induction l generalizing seen with
  | nil => simp [dedupFirstAux]
  | cons y ys ih =>
    by_cases hy : y ∈ seen
    · rw [dedupFirstAux, if_pos hy, ih]
      constructor
      · rintro ⟨h1, h2⟩
        exact ⟨List.mem_cons_of_mem _ h1, h2⟩
      · rintro ⟨h1, h2⟩
        rcases List.mem_cons.mp h1 with rfl | h1
        · exact absurd hy h2
        · exact ⟨h1, h2⟩
    · rw [dedupFirstAux, if_neg hy]
      constructor
      · intro h
        rcases List.mem_cons.mp h with rfl | h
        · exact ⟨List.mem_cons_self _ _, hy⟩
        · rw [ih] at h
          refine ⟨List.mem_cons_of_mem _ h.1, fun hx => h.2 (List.mem_cons_of_mem _ hx)⟩
      · rintro ⟨h1, h2⟩
        rcases List.mem_cons.mp h1 with rfl | h1
        · exact List.mem_cons_self _ _
        · by_cases hxy : x = y
          · subst hxy
            exact List.mem_cons_self _ _
          · refine List.mem_cons_of_mem _ ((ih (y :: seen)).mpr ⟨h1, ?_⟩)
            intro hx
            rcases List.mem_cons.mp hx with h | h
            · exact hxy h
            · exact h2 h

theorem mem_dedupFirst {x : String} {l : List String} : x ∈ dedupFirst l ↔ x ∈ l := by
  rw [dedupFirst, mem_dedupFirstAux]
  simp

/-- The differ's schema-less recomputation never infers a capability that
the full (schema-aware) inference at pin/scan time would miss: the keyword
signal source is shared and the schema source only adds tags. -/
theorem inferCapabilities_none_subset (d n : String) (s : Option (List (String × Json))) :
    ∀ c ∈ inferCapabilities d n none, c ∈ inferCapabilities d n s := by
  intro c hc
  simp only [inferCapabilities] at hc ⊢
  rw [mem_dedupFirst] at hc ⊢
  simp only [List.append_nil] at hc
  exact List.mem_append_left _ hc

/-! ## Lockfile-builder lemmas -/

theorem recordSet_fresh {l : List (String × α)} {k : String} (v : α)
    (h : ∀ p ∈ l, p.1 ≠ k) : recordSet l k v = l ++ [(k, v)] := by
  induction l with
  | nil => rfl
  | cons p ps ih =>
    rw [recordSet]
    rw [if_neg (by simpa using h p (List.mem_cons_self _ _))]
    rw [ih (fun q hq => h q (List.mem_cons_of_mem _ hq))]
    rfl

theorem buildTools_go (sha : String → String) :
    ∀ (ts : List LiveTool) (acc : List (String × LockfileTool)),
      (ts.map LiveTool.name).Nodup →
      (∀ p ∈ acc, ∀ t ∈ ts, p.1 ≠ t.name) →
      ts.foldl (fun acc t => recordSet acc t.name (mkLockfileTool sha t)) acc =
        acc ++ ts.map (fun t => (t.name, mkLockfileTool sha t))
  | [], acc, _, _ => by simp
  | t :: ts, acc, hnodup, hacc => by
    rw [List.foldl_cons]
    rw [recordSet_fresh _ (fun p hp => hacc p hp t (List.mem_cons_self _ _))]
    obtain ⟨hhead, htail⟩ := List.nodup_cons.mp hnodup
    rw [buildTools_go sha ts (acc ++ [(t.name, mkLockfileTool sha t)]) htail ?fresh]
    · simp
    case fresh =>
      intro p hp u hu
      rcases List.mem_append.mp hp with h | h
      · exact hacc p h u (List.mem_cons_of_mem _ hu)
      · rcases List.mem_singleton.mp h with rfl
        intro hne
        have : t.name = u.name := hne
        exact hhead (this ▸ List.mem_map_of_mem LiveTool.name hu)

theorem buildTools_eq_map (sha : String → String) (ts : List LiveTool)
    (h : (ts.map LiveTool.name).Nodup) :
    ts.foldl (fun acc t => recordSet acc t.name (mkLockfileTool sha t)) [] =
      ts.map (fun t => (t.name, mkLockfileTool sha t)) := by
  simpa using buildTools_go sha ts [] h (by simp)

/-! ## Live-tool map lemmas -/

theorem mapGetLast_fold_acc (n : String) :
    ∀ (ts : List LiveTool) (acc : Option LiveTool), (∀ t ∈ ts, t.name ≠ n) →
      ts.foldl (fun acc t => if t.name == n then some t else acc) acc = acc
  | [], acc, _ => rfl
  | u :: ts, acc, h => by
    rw [List.foldl_cons, if_neg (by simpa using h u (List.mem_cons_self _ _))]
    exact mapGetLast_fold_acc n ts acc (fun t ht => h t (List.mem_cons_of_mem _ ht))

theorem mapGetLast_fold_none (n : String) :
    ∀ (ts : List LiveTool) (acc : Option LiveTool),
      ts.foldl (fun acc t => if t.name == n then some t else acc) acc = none →
      acc = none ∧ ∀ t ∈ ts, t.name ≠ n
  | [], acc, h => ⟨h, by simp⟩
  | u :: ts, acc, h => by
    rw [List.foldl_cons] at h
    obtain ⟨hacc, hrest⟩ := mapGetLast_fold_none n ts _ h
    by_cases hu : u.name = n
    · rw [if_pos (by simpa using hu)] at hacc
      cases hacc
    · rw [if_neg (by simpa using hu)] at hacc
      refine ⟨hacc, ?_⟩
      intro t ht
      rcases List.mem_cons.mp ht with rfl | ht
      · exact hu
      · exact hrest t ht

theorem mapGetLast_eq_none_iff {ts : List LiveTool} {n : String} :
    mapGetLast ts n = none ↔ ∀ t ∈ ts, t.name ≠ n := by
  constructor
  · intro h
    exact (mapGetLast_fold_none n ts none h).2
  · intro h
    exact mapGetLast_fold_acc n ts none h

theorem mapGetLast_of_nodup {ts : List LiveTool} {t : LiveTool}
    (hnodup : (ts.map LiveTool.name).Nodup) (ht : t ∈ ts) :
    mapGetLast ts t.name = some t := by
  induction ts with
  | nil => cases ht
  | cons u ts ih =>
    obtain ⟨hhead, htail⟩ := List.nodup_cons.mp hnodup
    rcases List.mem_cons.mp ht with rfl | ht
    · rw [mapGetLast, List.foldl_cons, if_pos (by simp)]
      exact mapGetLast_fold_acc t.name ts (some t)
        (fun u hu hn => hhead (hn ▸ List.mem_map_of_mem LiveTool.name hu))
    · rw [mapGetLast, List.foldl_cons, if_neg ?hne]
      · exact ih htail ht
      case hne =>
        simp only [beq_iff_eq]
        intro hn
        exact hhead (hn ▸ List.mem_map_of_mem LiveTool.name ht)

theorem recordGet_of_mem_nodup {l : List (String × α)} {p : String × α}
    (hnodup : (l.map Prod.fst).Nodup) (hp : p ∈ l) : recordGet l p.1 = some p.2 := by
  induction l with
  | nil => cases hp
  | cons q l ih =>
    obtain ⟨hhead, htail⟩ := List.nodup_cons.mp hnodup
    rcases List.mem_cons.mp hp with rfl | hp
    · unfold recordGet
      rw [List.find?_cons_of_pos _ (by simp)]
      rfl
    · unfold recordGet
      rw [List.find?_cons_of_neg _ ?hne]
      · exact ih htail hp
      case hne =>
        simp only [beq_iff_eq]
        intro hn
        exact hhead (hn ▸ List.mem_map_of_mem Prod.fst hp)

/-! ## The differ is silent on an unchanged server (core of claim C3) -/

theorem diffServerTools_self (sha : String → String) (serverName : String)
    (cfg : MCPServerConfig) (info : LiveServerInfo)
    (hnodup : (info.tools.map LiveTool.name).Nodup) :
    diffServerTools sha serverName (buildServerEntry sha cfg info) info = [] := by
  have htools : (buildServerEntry sha cfg info).tools =
      info.tools.map (fun t => (t.name, mkLockfileTool sha t)) :=
    buildTools_eq_map sha info.tools hnodup
  have hver : (buildServerEntry sha cfg info).serverVersion = info.serverVersion := rfl
  have hcount : (buildServerEntry sha cfg info).toolCount = info.tools.length := rfl
  rw [diffServerTools]
  rw [hver, hcount, htools]
  simp only [bne_self_eq_false, Bool.and_false, Bool.false_eq_true, if_false, List.nil_append]
  refine (List.append_eq_nil).mpr ⟨(List.append_eq_nil).mpr ⟨?removed, ?added⟩, ?drift⟩
  case removed =>
    rw [List.filterMap_eq_nil_iff]
    intro p hp
    obtain ⟨t, ht, rfl⟩ := List.mem_map.mp hp
    rw [mapGetLast_of_nodup hnodup ht]
    simp
  case added =>
    rw [List.filterMap_eq_nil_iff]
    intro t ht
    rw [recordGet_of_mem_nodup (by simpa using hnodup)
      (List.mem_map_of_mem (fun t => (t.name, mkLockfileTool sha t)) ht)]
    simp
  case drift =>
    rw [List.flatMap_eq_nil_iff]
    intro p hp
    obtain ⟨t, ht, rfl⟩ := List.mem_map.mp hp
    rw [mapGetLast_of_nodup hnodup ht]
    have hcaps :
        (diffLiveCapabilities t.name t).filter
          (fun c => !((inferCapabilities (t.description.getD "") t.name t.inputSchema).contains c)) = [] := by
      rw [List.filter_eq_nil_iff]
      intro c hc
      have hmem : c ∈ inferCapabilities (t.description.getD "") t.name t.inputSchema :=
        inferCapabilities_none_subset (t.description.getD "") t.name t.inputSchema c hc
      simp only [List.elem_eq_true_of_mem hmem, Bool.not_true]
      exact fun h => Bool.false_ne_true h
    simp only [mkLockfileTool]
    simp only [bne_self_eq_false, Bool.false_eq_true, if_false, List.nil_append]
    rw [hcaps]
    rfl

/-! ## Claim C3: identical observations drift nothing; summary tallies -/

/-- Claim C3 (confirmed): when every configured server connects and
returns exactly the observation its baseline entry was built from (and
vice versa every pinned server is still configured), `computeDiff` reports
`drifted = false` with zero entries; and for every run whatsoever the
summary is the per-severity tally of the entries. -/
theorem claim_C3_identical_state (sha : String → String) (connector : Connector)
    (lockfile : Lockfile) (config : MCPConfig)
    (hnodupL : (lockfile.servers.map Prod.fst).Nodup)
    (halign : ∀ p ∈ config.servers, ∃ info, connector p.1 p.2 = .ok info ∧
        (info.tools.map LiveTool.name).Nodup ∧
        recordGet lockfile.servers p.1 = some (buildServerEntry sha p.2 info))
    (hcover : ∀ q ∈ lockfile.servers, ∃ c, recordGet config.servers q.1 = some c) :
    (computeDiff sha connector lockfile config true).1.drifted = false ∧
    (computeDiff sha connector lockfile config true).1.entries = [] ∧
    (∀ (lf : Lockfile) (cf : MCPConfig) (cn : Bool),
      (computeDiff sha connector lf cf cn).1.summary =
        { critical := ((computeDiff sha connector lf cf cn).1.entries.filter
            (fun e => e.severity == DiffSeverity.critical)).length
          warning := ((computeDiff sha connector lf cf cn).1.entries.filter
            (fun e => e.severity == DiffSeverity.warning)).length
          info := ((computeDiff sha connector lf cf cn).1.entries.filter
            (fun e => e.severity == DiffSeverity.info)).length }) := by
  have hent : (computeDiff sha connector lockfile config true).1.entries = [] := by
    simp only [computeDiff]
    refine (List.append_eq_nil).mpr ⟨(List.append_eq_nil).mpr ⟨?rem, ?add⟩, ?tool⟩
    case rem =>
      rw [List.filterMap_eq_nil_iff]
      intro q hq
      obtain ⟨c, hc⟩ := hcover q hq
      simp [hc]
    case add =>
      rw [List.filterMap_eq_nil_iff]
      intro p hp
      obtain ⟨info, _, _, hl⟩ := halign p hp
      simp [hl]
    case tool =>
      rw [List.flatten_eq_nil_iff]
      intro l hl
      simp only [List.mem_map] at hl
      obtain ⟨pair, ⟨q, hq, rfl⟩, rfl⟩ := hl
      cases hc : recordGet config.servers q.1 with
      | none => simp
      | some c =>
        obtain ⟨info, hconn, hnodupT, hl⟩ := halign (q.1, c) (recordGet_mem hc)
        have hq2 : recordGet lockfile.servers q.1 = some q.2 :=
          recordGet_of_mem_nodup hnodupL hq
        have hentry : q.2 = buildServerEntry sha c info := by
          rw [hq2] at hl
          exact Option.some.inj hl
        simp only [hconn, if_true, hentry]
        rw [diffServerTools_self sha q.1 c info hnodupT]
  refine ⟨?_, hent, fun lf cf cn => rfl⟩
  have hdr : (computeDiff sha connector lockfile config true).1.drifted =
      decide (0 < (computeDiff sha connector lockfile config true).1.entries.length) := rfl
  rw [hdr, hent]
  rfl

/-- Witness for claim C3: a one-server, one-tool configuration whose
connector returns exactly the pinned observation. -/
theorem claim_C3_identical_state_witness :
    (computeDiff id
      (fun _ _ => Except.ok ⟨some "2024-11-05", some "srv", some "1.0.0",
        [⟨"read_file", some "Read a file", some [("type", Json.str "object")]⟩]⟩)
      ⟨1, "", "", "", "",
        [("s", buildServerEntry id ⟨some "stdio", some "node", none, none, none⟩
          ⟨some "2024-11-05", some "srv", some "1.0.0",
            [⟨"read_file", some "Read a file", some [("type", Json.str "object")]⟩]⟩)]⟩
      ⟨"c", "p", [("s", ⟨some "stdio", some "node", none, none, none⟩)]⟩
      true).1.drifted = false ∧
    (computeDiff id
      (fun _ _ => Except.ok ⟨some "2024-11-05", some "srv", some "1.0.0",
        [⟨"read_file", some "Read a file", some [("type", Json.str "object")]⟩]⟩)
      ⟨1, "", "", "", "",
        [("s", buildServerEntry id ⟨some "stdio", some "node", none, none, none⟩
          ⟨some "2024-11-05", some "srv", some "1.0.0",
            [⟨"read_file", some "Read a file", some [("type", Json.str "object")]⟩]⟩)]⟩
      ⟨"c", "p", [("s", ⟨some "stdio", some "node", none, none, none⟩)]⟩
      true).1.entries = [] := by
  have key := claim_C3_identical_state id
    (fun _ _ => Except.ok ⟨some "2024-11-05", some "srv", some "1.0.0",
      [⟨"read_file", some "Read a file", some [("type", Json.str "object")]⟩]⟩)
    ⟨1, "", "", "", "",
      [("s", buildServerEntry id ⟨some "stdio", some "node", none, none, none⟩
        ⟨some "2024-11-05", some "srv", some "1.0.0",
          [⟨"read_file", some "Read a file", some [("type", Json.str "object")]⟩]⟩)]⟩
    ⟨"c", "p", [("s", ⟨some "stdio", some "node", none, none, none⟩)]⟩
    (by decide)
    (by
      intro p hp
      rcases List.mem_singleton.mp hp with rfl
      exact ⟨_, rfl, by decide, rfl⟩)
    (by
      intro q hq
      rcases List.mem_singleton.mp hq with rfl
      exact ⟨_, rfl⟩)
  exact ⟨key.1, key.2.1⟩

/-! ## Claim C2: capability gain is critical, capability loss is silent -/

/-- Claim C2 (confirmed): for a tool present in both the baseline and the
live listing, every live-inferred tag missing from the pinned list yields
a critical capability-changed entry for that (server, tool) — the single
aggregated entry names the tag among the detected new capabilities — while
a pinned tag missing live (pure removal) yields no capability-changed
entry for that tool at all. -/
theorem claim_C2_capability_asymmetry (sha : String → String) (serverName : String)
    (locked : LockfileServer) (live : LiveServerInfo)
    (hnodupT : (locked.tools.map Prod.fst).Nodup)
    (toolName : String) (lockedTool : LockfileTool) (liveTool : LiveTool)
    (hlocked : (toolName, lockedTool) ∈ locked.tools)
    (hlive : mapGetLast live.tools toolName = some liveTool) :
    (∀ c ∈ diffLiveCapabilities toolName liveTool, c ∉ lockedTool.capabilities →
      ∃ e ∈ diffServerTools sha serverName locked live,
        e.type = DiffType.capabilityChanged ∧ e.severity = DiffSeverity.critical ∧
        e.server = serverName ∧ e.tool = some toolName ∧
        ∃ newCaps, c ∈ newCaps ∧
          e.detail = "New capabilities detected: " ++ String.intercalate ", " newCaps ∧
          e.newValue = some (String.intercalate ", " (diffLiveCapabilities toolName liveTool))) ∧
    ((∀ c ∈ diffLiveCapabilities toolName liveTool, c ∈ lockedTool.capabilities) →
      ∀ e ∈ diffServerTools sha serverName locked live, e.tool = some toolName →
        e.type ≠ DiffType.capabilityChanged) := by
  constructor
  · intro c hc hcnot
    have hcontains : (lockedTool.capabilities.contains c) = false := by
      cases hcon : lockedTool.capabilities.contains c with
      | false => rfl
      | true => exact absurd (List.mem_of_elem_eq_true hcon) hcnot
    have hmemNew : c ∈ (diffLiveCapabilities toolName liveTool).filter
        (fun x => !(lockedTool.capabilities.contains x)) := by
      rw [List.mem_filter]
      refine ⟨hc, ?_⟩
      rw [hcontains]
      rfl
    have hlen : 0 < ((diffLiveCapabilities toolName liveTool).filter
        (fun x => !(lockedTool.capabilities.contains x))).length :=
      List.length_pos_of_mem hmemNew
    refine ⟨{ server := serverName, tool := some toolName, type := DiffType.capabilityChanged
              severity := DiffSeverity.critical
              detail := "New capabilities detected: " ++ String.intercalate ", "
                ((diffLiveCapabilities toolName liveTool).filter
                  (fun x => !(lockedTool.capabilities.contains x)))
              oldValue := some (String.intercalate ", " lockedTool.capabilities)
              newValue := some (String.intercalate ", " (diffLiveCapabilities toolName liveTool)) },
      ?mem, rfl, rfl, rfl, rfl,
      (diffLiveCapabilities toolName liveTool).filter
        (fun x => !(lockedTool.capabilities.contains x)), hmemNew, rfl, rfl⟩
    case mem =>
      rw [diffServerTools]
      refine List.mem_append_right _ (List.mem_flatMap.mpr ⟨(toolName, lockedTool), hlocked, ?_⟩)
      simp only [hlive]
      refine List.mem_append_right _ ?_
      rw [if_pos (by simpa using hlen)]
      exact List.mem_singleton.mpr rfl
  · intro hsub e he hetool
    rw [diffServerTools] at he
    have hcapsEmpty : (diffLiveCapabilities toolName liveTool).filter
        (fun x => !(lockedTool.capabilities.contains x)) = [] := by
      rw [List.filter_eq_nil_iff]
      intro c hc
      simp only [List.elem_eq_true_of_mem (hsub c hc), Bool.not_true]
      exact fun h => Bool.false_ne_true h
    rcases List.mem_append.mp he with he | hdrift
    · rcases List.mem_append.mp he with he | hadded
      · rcases List.mem_append.mp he with he | hremoved
        · rcases List.mem_append.mp he with hversion | hcountE
          · by_cases hcond : (jsTruthyS locked.serverVersion && jsTruthyS live.serverVersion &&
                (locked.serverVersion != live.serverVersion)) = true
            · rw [if_pos hcond] at hversion
              rcases List.mem_singleton.mp hversion with rfl
              cases hetool
            · rw [if_neg hcond] at hversion
              cases hversion
          · by_cases hcond : (locked.toolCount != live.tools.length) = true
            · rw [if_pos hcond] at hcountE
              rcases List.mem_singleton.mp hcountE with rfl
              cases hetool
            · rw [if_neg hcond] at hcountE
              cases hcountE
        · obtain ⟨p, _, hp⟩ := List.mem_filterMap.mp hremoved
          by_cases hcond : (mapGetLast live.tools p.1).isNone
          · rw [if_pos hcond] at hp
            cases hp
            intro hty
            cases hty
          · rw [if_neg hcond] at hp
            cases hp
      · obtain ⟨t, _, ht⟩ := List.mem_filterMap.mp hadded
        by_cases hcond : (recordGet locked.tools t.name).isNone
        · rw [if_pos hcond] at ht
          cases ht
          intro hty
          cases hty
        · rw [if_neg hcond] at ht
          cases ht
    · obtain ⟨p, hpmem, hin⟩ := List.mem_flatMap.mp hdrift
      by_cases hname : p.1 = toolName
      · have h1 : recordGet locked.tools p.1 = some p.2 :=
          recordGet_of_mem_nodup hnodupT hpmem
        have h2 : recordGet locked.tools toolName = some lockedTool :=
          recordGet_of_mem_nodup hnodupT hlocked
        have hval : p.2 = lockedTool := Option.some.inj ((hname ▸ h1).symm.trans h2)
        have hpe : p = (toolName, lockedTool) := by
          rw [Prod.ext_iff]
          exact ⟨hname, hval⟩
        subst hpe
        simp only [hlive, hcapsEmpty] at hin
        rcases List.mem_append.mp hin with hin | hcap
        · rcases List.mem_append.mp hin with hdesc | hschema
          · by_cases hcond : (lockedTool.descriptionHash !=
                hashValue sha (.str (liveTool.description.getD ""))) = true
            · rw [if_pos hcond] at hdesc
              rcases List.mem_singleton.mp hdesc with rfl
              intro hty
              cases hty
            · rw [if_neg hcond] at hdesc
              cases hdesc
          · by_cases hcond : (lockedTool.inputSchemaHash !=
                hashValue sha (.obj (liveTool.inputSchema.getD []))) = true
            · rw [if_pos hcond] at hschema
              rcases List.mem_singleton.mp hschema with rfl
              intro hty
              cases hty
            · rw [if_neg hcond] at hschema
              cases hschema
        · simp at hcap
      · cases hlt : mapGetLast live.tools p.1 with
        | none =>
          rw [hlt] at hin
          cases hin
        | some lt =>
          rw [hlt] at hin
          rcases List.mem_append.mp hin with hin | hcap
          · rcases List.mem_append.mp hin with hdesc | hschema
            · by_cases hcond : (p.2.descriptionHash !=
                  hashValue sha (.str (lt.description.getD ""))) = true
              · rw [if_pos hcond] at hdesc
                rcases List.mem_singleton.mp hdesc with rfl
                exact absurd (Option.some.inj hetool) hname
              · rw [if_neg hcond] at hdesc
                cases hdesc
            · by_cases hcond : (p.2.inputSchemaHash !=
                  hashValue sha (.obj (lt.inputSchema.getD []))) = true
              · rw [if_pos hcond] at hschema
                rcases List.mem_singleton.mp hschema with rfl
                exact absurd (Option.some.inj hetool) hname
              · rw [if_neg hcond] at hschema
                cases hschema
          · by_cases hcond : (0 < ((diffLiveCapabilities p.1 lt).filter
                (fun c => !(p.2.capabilities.contains c))).length)
            · rw [if_pos (by simpa using hcond)] at hcap
              rcases List.mem_singleton.mp hcap with rfl
              exact absurd (Option.some.inj hetool) hname
            · rw [if_neg (by simpa using hcond)] at hcap
              cases hcap

/-- Witness for claim C2: a pinned tool with no capabilities whose live
description now matches the delete family. -/
theorem claim_C2_capability_asymmetry_witness :
    ∃ e ∈ diffServerTools id "s"
        ⟨"stdio", none, none, none, none, none, none, none,
          [("t", ⟨"sha256:h1", "sha256:h2", []⟩)], 1⟩
        ⟨none, none, none, [⟨"t", some "delete stuff", none⟩]⟩,
      e.type = DiffType.capabilityChanged ∧ e.severity = DiffSeverity.critical ∧
      e.server = "s" ∧ e.tool = some "t" ∧
      ∃ newCaps, "delete" ∈ newCaps ∧
        e.detail = "New capabilities detected: " ++ String.intercalate ", " newCaps ∧
        e.newValue = some (String.intercalate ", "
          (diffLiveCapabilities "t" ⟨"t", some "delete stuff", none⟩)) :=
  (claim_C2_capability_asymmetry id "s"
      ⟨"stdio", none, none, none, none, none, none, none,
        [("t", ⟨"sha256:h1", "sha256:h2", []⟩)], 1⟩
      ⟨none, none, none, [⟨"t", some "delete stuff", none⟩]⟩
      (by decide) "t" ⟨"sha256:h1", "sha256:h2", []⟩ ⟨"t", some "delete stuff", none⟩
      (List.mem_singleton.mpr rfl) rfl).1
    "delete" (by decide) (by decide)

/-! ## Claim C4: capability inference at pin vs. diff vs. scan time -/

/-- Claim C4 (corrected): the lockfile builder and the scanner infer
capabilities from the same three inputs — description, name and input
schema — and agree exactly; the drift differ, however, recomputes from
description and name only (its call site passes no schema), so its set is
merely a subset of the pin/scan-time set for the same observed tool. -/
theorem claim_C4_amended (sha : String → String) (cfg : MCPServerConfig)
    (info : LiveServerInfo) (hnodup : (info.tools.map LiveTool.name).Nodup)
    (tl : LiveTool) (ht : tl ∈ info.tools) :
    recordGet (buildServerEntry sha cfg info).tools tl.name =
      some ⟨hashValue sha (.str (tl.description.getD "")),
            hashValue sha (.obj (tl.inputSchema.getD [])),
            scanToolCapabilities tl⟩ ∧
    scanToolCapabilities tl = inferCapabilities (tl.description.getD "") tl.name tl.inputSchema ∧
    diffLiveCapabilities tl.name tl = inferCapabilities (tl.description.getD "") tl.name none ∧
    (∀ c ∈ diffLiveCapabilities tl.name tl, c ∈ scanToolCapabilities tl) := by
  refine ⟨?_, rfl, rfl, fun c hc => inferCapabilities_none_subset _ _ _ c hc⟩
  have hmap : (buildServerEntry sha cfg info).tools =
      info.tools.map (fun t => (t.name, mkLockfileTool sha t)) :=
    buildTools_eq_map sha info.tools hnodup
  rw [hmap]
  exact recordGet_of_mem_nodup (by simpa using hnodup)
    (List.mem_map_of_mem (fun t => (t.name, mkLockfileTool sha t)) ht)

/-- Counterexample for claim C4 as frozen: a tool whose schema has a
`command` property gives `["execute"]` at pin/scan time but `[]` at diff
time, and a diff run against a baseline pinned before the schema gained
the property reports no capability-changed entry (the escalation the spec
expects the differ to catch). -/
theorem claim_C4_counterexample :
    diffLiveCapabilities "zzz"
        ⟨"zzz", some "zzz qqq", some [("properties", Json.obj [("command", Json.obj [])])]⟩ ≠
      scanToolCapabilities
        ⟨"zzz", some "zzz qqq", some [("properties", Json.obj [("command", Json.obj [])])]⟩ ∧
    (diffServerTools id "s"
        ⟨"stdio", none, none, none, none, none, none, none,
          [("t", ⟨hashValue id (.str "zzz qqq"), hashValue id (.obj []), []⟩)], 1⟩
        ⟨none, none, none,
          [⟨"t", some "zzz qqq", some [("properties", Json.obj [("command", Json.obj [])])]⟩]⟩).filter
      (fun e => e.type == DiffType.capabilityChanged) = [] ∧
    scanToolCapabilities
        ⟨"t", some "zzz qqq", some [("properties", Json.obj [("command", Json.obj [])])]⟩ =
      ["execute"] := by
  decide

/-- Witness for claim C4 (amended) at a concrete one-tool observation. -/
theorem claim_C4_amended_witness :
    recordGet (buildServerEntry id ⟨some "stdio", some "node", none, none, none⟩
        ⟨none, none, none,
          [⟨"w", some "zzz qqq", some [("properties", Json.obj [("command", Json.obj [])])]⟩]⟩).tools
        "w" =
      some ⟨hashValue id (.str "zzz qqq"),
            hashValue id (.obj [("properties", Json.obj [("command", Json.obj [])])]),
            scanToolCapabilities
              ⟨"w", some "zzz qqq", some [("properties", Json.obj [("command", Json.obj [])])]⟩⟩ ∧
    scanToolCapabilities
        ⟨"w", some "zzz qqq", some [("properties", Json.obj [("command", Json.obj [])])]⟩ =
      inferCapabilities "zzz qqq" "w"
        (some [("properties", Json.obj [("command", Json.obj [])])]) ∧
    diffLiveCapabilities "w"
        ⟨"w", some "zzz qqq", some [("properties", Json.obj [("command", Json.obj [])])]⟩ =
      inferCapabilities "zzz qqq" "w" none ∧
    (∀ c ∈ diffLiveCapabilities "w"
        ⟨"w", some "zzz qqq", some [("properties", Json.obj [("command", Json.obj [])])]⟩,
      c ∈ scanToolCapabilities
        ⟨"w", some "zzz qqq", some [("properties", Json.obj [("command", Json.obj [])])]⟩) :=
  claim_C4_amended id ⟨some "stdio", some "node", none, none, none⟩
    ⟨none, none, none,
      [⟨"w", some "zzz qqq", some [("properties", Json.obj [("command", Json.obj [])])]⟩]⟩
    (by decide)
    ⟨"w", some "zzz qqq", some [("properties", Json.obj [("command", Json.obj [])])]⟩
    (List.mem_singleton.mpr rfl)

/-! ## Injectivity of the JSON string escape (needed to translate
"description changed" into "descriptionHash changed") -/

theorem hexDigit_inj_fin : ∀ m n : Fin 16, hexDigit m.val = hexDigit n.val → m = n := by decide

theorem hexDigit_inj {m n : Nat} (hm : m < 16) (hn : n < 16)
    (h : hexDigit m = hexDigit n) : m = n :=
  congrArg Fin.val (hexDigit_inj_fin ⟨m, hm⟩ ⟨n, hn⟩ h)

theorem escapeChar_cases (c : Char) :
    (escapeChar c = [c] ∧ c ≠ '\\' ∧ c ≠ '"' ∧ 32 ≤ c.toNat) ∨
    (∃ x, escapeChar c = ['\\', x] ∧
      ((c = '"' ∧ x = '"') ∨ (c = '\\' ∧ x = '\\') ∨ (c.toNat = 8 ∧ x = 'b') ∨
       (c.toNat = 9 ∧ x = 't') ∨ (c.toNat = 10 ∧ x = 'n') ∨ (c.toNat = 12 ∧ x = 'f') ∨
       (c.toNat = 13 ∧ x = 'r'))) ∨
    (escapeChar c = ['\\', 'u', '0', '0', hexDigit (c.toNat / 16), hexDigit (c.toNat % 16)] ∧
      c.toNat < 32 ∧ c.toNat ≠ 8 ∧ c.toNat ≠ 9 ∧ c.toNat ≠ 10 ∧ c.toNat ≠ 12 ∧
      c.toNat ≠ 13) := by
  by_cases h1 : c = '"'
  · exact Or.inr (Or.inl ⟨'"', by simp [escapeChar, h1], Or.inl ⟨h1, rfl⟩⟩)
  by_cases h2 : c = '\\'
  · exact Or.inr (Or.inl ⟨'\\', by simp [escapeChar, h1, h2], Or.inr (Or.inl ⟨h2, rfl⟩)⟩)
  by_cases h3 : c.toNat = 8
  · exact Or.inr (Or.inl ⟨'b', by simp [escapeChar, h1, h2, h3],
      Or.inr (Or.inr (Or.inl ⟨h3, rfl⟩))⟩)
  by_cases h4 : c.toNat = 9
  · exact Or.inr (Or.inl ⟨'t', by simp [escapeChar, h1, h2, h3, h4],
      Or.inr (Or.inr (Or.inr (Or.inl ⟨h4, rfl⟩)))⟩)
  by_cases h5 : c.toNat = 10
  · exact Or.inr (Or.inl ⟨'n', by simp [escapeChar, h1, h2, h3, h4, h5],
      Or.inr (Or.inr (Or.inr (Or.inr (Or.inl ⟨h5, rfl⟩))))⟩)
  by_cases h6 : c.toNat = 12
  · exact Or.inr (Or.inl ⟨'f', by simp [escapeChar, h1, h2, h3, h4, h5, h6],
      Or.inr (Or.inr (Or.inr (Or.inr (Or.inr (Or.inl ⟨h6, rfl⟩)))))⟩)
  by_cases h7 : c.toNat = 13
  · exact Or.inr (Or.inl ⟨'r', by simp [escapeChar, h1, h2, h3, h4, h5, h6, h7],
      Or.inr (Or.inr (Or.inr (Or.inr (Or.inr (Or.inr ⟨h7, rfl⟩)))))⟩)
  by_cases h8 : c.toNat < 32
  · exact Or.inr (Or.inr ⟨by simp [escapeChar, h1, h2, h3, h4, h5, h6, h7, h8],
      h8, h3, h4, h5, h6, h7⟩)
  · exact Or.inl ⟨by simp [escapeChar, h1, h2, h3, h4, h5, h6, h7, h8], h2, h1, by omega⟩

theorem escapeChar_ne_nil (c : Char) : escapeChar c ≠ [] := by
  rcases escapeChar_cases c with ⟨h, -⟩ | ⟨x, h, -⟩ | ⟨h, -⟩ <;> simp [h]

theorem escape_head_inj (c d : Char) (r s : List Char)
    (h : escapeChar c ++ r = escapeChar d ++ s) : c = d ∧ r = s := by
  rcases escapeChar_cases c with ⟨hc, hcb, hcq, hcge⟩ | ⟨x, hc, hx⟩ | ⟨hc, hclt, hc8, hc9, hc10, hc12, hc13⟩ <;>
    rcases escapeChar_cases d with ⟨hd, hdb, hdq, hdge⟩ | ⟨y, hd, hy⟩ | ⟨hd, hdlt, hd8, hd9, hd10, hd12, hd13⟩ <;>
    rw [hc, hd] at h
  · simpa using h
  · rw [List.cons_append, List.cons_append, List.cons.injEq] at h
    exact absurd h.1 hcb
  · rw [List.cons_append, List.cons_append, List.cons.injEq] at h
    exact absurd h.1 hcb
  · simp only [List.cons_append, List.singleton_append, List.nil_append, List.cons.injEq] at h
    exact absurd h.1.symm hdb
  · simp only [List.cons_append, List.nil_append, List.cons.injEq] at h
    obtain ⟨-, hxy, hrs⟩ := h
    refine ⟨?_, hrs⟩
    subst hxy
    rcases hx with ⟨rfl, rfl⟩ | ⟨rfl, rfl⟩ | ⟨hcn, rfl⟩ | ⟨hcn, rfl⟩ | ⟨hcn, rfl⟩ | ⟨hcn, rfl⟩ | ⟨hcn, rfl⟩ <;>
      rcases hy with ⟨rfl, hyv⟩ | ⟨rfl, hyv⟩ | ⟨hdn, hyv⟩ | ⟨hdn, hyv⟩ | ⟨hdn, hyv⟩ | ⟨hdn, hyv⟩ | ⟨hdn, hyv⟩ <;>
      first
        | rfl
        | (exact absurd hyv (by decide))
        | (exact charToNat_inj (by omega))
  · simp only [List.cons_append, List.nil_append, List.cons.injEq] at h
    obtain ⟨-, hxu, -⟩ := h
    rcases hx with ⟨-, rfl⟩ | ⟨-, rfl⟩ | ⟨-, rfl⟩ | ⟨-, rfl⟩ | ⟨-, rfl⟩ | ⟨-, rfl⟩ | ⟨-, rfl⟩ <;>
      exact absurd hxu (by decide)
  · simp only [List.cons_append, List.singleton_append, List.nil_append, List.cons.injEq] at h
    exact absurd h.1.symm hdb
  · simp only [List.cons_append, List.nil_append, List.cons.injEq] at h
    obtain ⟨-, hxu, -⟩ := h
    rcases hy with ⟨-, rfl⟩ | ⟨-, rfl⟩ | ⟨-, rfl⟩ | ⟨-, rfl⟩ | ⟨-, rfl⟩ | ⟨-, rfl⟩ | ⟨-, rfl⟩ <;>
      exact absurd hxu (by decide)
  · simp only [List.cons_append, List.nil_append, List.cons.injEq] at h
    obtain ⟨-, -, -, -, ha1, ha2, hrs⟩ := h
    refine ⟨?_, hrs⟩
    have hdiv : c.toNat / 16 = d.toNat / 16 :=
      hexDigit_inj (by omega) (by omega) ha1
    have hmod : c.toNat % 16 = d.toNat % 16 :=
      hexDigit_inj (by omega) (by omega) ha2
    exact charToNat_inj (by omega)

theorem escapeBody_inj : ∀ a b : List Char,
    a.flatMap escapeChar = b.flatMap escapeChar → a = b
  | [], [] => fun _ => rfl
  | [], d :: b => fun h => by
    rw [List.flatMap_nil, List.flatMap_cons] at h
    exact absurd ((List.append_eq_nil).mp h.symm).1 (escapeChar_ne_nil d)
  | c :: a, [] => fun h => by
    rw [List.flatMap_nil, List.flatMap_cons] at h
    exact absurd ((List.append_eq_nil).mp h).1 (escapeChar_ne_nil c)
  | c :: a, d :: b => fun h => by
    rw [List.flatMap_cons, List.flatMap_cons] at h
    obtain ⟨rfl, htail⟩ := escape_head_inj c d _ _ h
    rw [escapeBody_inj a b htail]

theorem jsonQuote_inj {s t : String} (h : jsonQuote s = jsonQuote t) : s = t := by
  unfold jsonQuote at h
  have h2 : '"' :: (s.data.flatMap escapeChar ++ ['"']) =
      '"' :: (t.data.flatMap escapeChar ++ ['"']) := congrArg String.data h
  have h3 := List.append_cancel_right (List.cons_injective h2)
  exact String.ext (escapeBody_inj _ _ h3)

/-- With an injective hash core, differing descriptions give differing
stored hash strings. -/
theorem hashValue_str_ne (sha : String → String) (hinj : Function.Injective sha)
    {a b : String} (hne : a ≠ b) : hashValue sha (.str a) ≠ hashValue sha (.str b) := by
  intro h
  unfold hashValue at h
  have h2 : (HASH_ALGORITHM ++ ":").data ++ (sha (canonicalize (.str a))).data =
      (HASH_ALGORITHM ++ ":").data ++ (sha (canonicalize (.str b))).data := by
    have := congrArg String.data h
    simpa [String.append_assoc] using this
  have h3 : sha (canonicalize (.str a)) = sha (canonicalize (.str b)) :=
    String.ext (List.append_cancel_left h2)
  have h4 := hinj h3
  exact hne (jsonQuote_inj h4)

/-! ## Claim C1: a lone description change -/

theorem flatMap_if_single {α β : Type _} {l : List α} {g : α → List β} {p : α → Bool} {e : β}
    (hg : ∀ u ∈ l, g u = if p u then [e] else [])
    (hcount : l.countP p = 1) :
    l.flatMap g = [e] := by
  induction l with
  | nil => simp at hcount
  | cons u l ih =>
    rw [List.flatMap_cons]
    by_cases hu : p u
    · rw [List.countP_cons_of_pos _ _ hu] at hcount
      have hrest : l.countP p = 0 := by omega
      have hnil : l.flatMap g = [] := by
        rw [List.flatMap_eq_nil_iff]
        intro v hv
        rw [hg v (List.mem_cons_of_mem _ hv),
          if_neg ((List.countP_eq_zero.mp hrest) v hv)]
      rw [hg u (List.mem_cons_self _ _), if_pos hu, hnil, List.append_nil]
    · rw [List.countP_cons_of_neg _ _ hu] at hcount
      rw [hg u (List.mem_cons_self _ _), if_neg hu, List.nil_append]
      exact ih (fun v hv => hg v (List.mem_cons_of_mem _ hv)) hcount

theorem countP_name_eq_one {ts : List LiveTool} {t : String}
    (hnodup : (ts.map LiveTool.name).Nodup) (hex : ∃ u ∈ ts, u.name = t) :
    ts.countP (fun u => u.name == t) = 1 := by
  induction ts with
  | nil => simp at hex
  | cons u ts ih =>
    obtain ⟨hhead, htail⟩ := List.nodup_cons.mp hnodup
    by_cases hu : u.name = t
    · rw [List.countP_cons_of_pos _ _ (by simpa using hu)]
      have hzero : ts.countP (fun v => v.name == t) = 0 := by
        rw [List.countP_eq_zero]
        intro v hv
        simp only [beq_iff_eq]
        intro hvt
        exact hhead ((hu.trans hvt.symm) ▸ List.mem_map_of_mem LiveTool.name hv)
      omega
    · rw [List.countP_cons_of_neg _ _ (by simpa using hu)]
      refine ih htail ?_
      obtain ⟨v, hv, hvt⟩ := hex
      rcases List.mem_cons.mp hv with rfl | hv
      · exact absurd hvt hu
      · exact ⟨v, hv, hvt⟩

/-- Core of claim C1: against a baseline built from `info`, a live state
identical except that the description of the tool named `t` became `D2`
diffs to exactly the one critical description-changed entry — provided the
keyword capabilities of `D2` stay within the pinned set (the amendment). -/
theorem diffServerTools_desc_only (sha : String → String) (hinj : Function.Injective sha)
    (serverName : String) (cfg : MCPServerConfig) (info : LiveServerInfo)
    (t D1 D2 : String)
    (hnodup : (info.tools.map LiveTool.name).Nodup)
    (hex : ∃ u ∈ info.tools, u.name = t)
    (hD1 : ∀ u ∈ info.tools, u.name = t → u.description = some D1)
    (hne : D2 ≠ D1)
    (hcaps : ∀ u ∈ info.tools, u.name = t →
      ∀ c ∈ inferCapabilities D2 t none,
        c ∈ inferCapabilities (u.description.getD "") u.name u.inputSchema) :
    diffServerTools sha serverName (buildServerEntry sha cfg info)
      { info with tools := info.tools.map (fun u =>
          if u.name = t then { u with description := some D2 } else u) } =
      [{ server := serverName, tool := some t, type := DiffType.descriptionChanged
         severity := DiffSeverity.critical
         detail := "Tool description changed (possible tool poisoning)"
         oldValue := some (hashValue sha (.str D1))
         newValue := some (hashValue sha (.str D2)) }] := by
  set f : LiveTool → LiveTool :=
    fun u => if u.name = t then { u with description := some D2 } else u with hf
  have hfname : ∀ u : LiveTool, (f u).name = u.name := by
    intro u
    by_cases h : u.name = t <;> simp [hf, h]
  have hnames : (info.tools.map f).map LiveTool.name = info.tools.map LiveTool.name := by
    rw [List.map_map]
    exact List.map_congr_left (fun u _ => hfname u)
  have hnodup2 : ((info.tools.map f).map LiveTool.name).Nodup := by
    rw [hnames]; exact hnodup
  have htools : (buildServerEntry sha cfg info).tools =
      info.tools.map (fun u => (u.name, mkLockfileTool sha u)) :=
    buildTools_eq_map sha info.tools hnodup
  have hlast : ∀ u ∈ info.tools, mapGetLast (info.tools.map f) u.name = some (f u) := by
    intro u hu
    have := mapGetLast_of_nodup hnodup2 (List.mem_map_of_mem f hu)
    rwa [hfname u] at this
  have hver : (buildServerEntry sha cfg info).serverVersion = info.serverVersion := rfl
  have hlen : (info.tools.map f).length = info.tools.length := List.length_map _ _
  have hcountE : (buildServerEntry sha cfg info).toolCount = info.tools.length := rfl
  rw [diffServerTools]
  rw [htools, hver]
  simp only [bne_self_eq_false, Bool.and_false, Bool.false_eq_true, if_false, List.nil_append]
  rw [show ((buildServerEntry sha cfg info).toolCount !=
      (info.tools.map f).length) = false by
    rw [hcountE, hlen]; simp]
  simp only [Bool.false_eq_true, if_false, List.nil_append]
  have hremoved :
      (info.tools.map (fun u => (u.name, mkLockfileTool sha u))).filterMap
        (fun p => if (mapGetLast (info.tools.map f) p.1).isNone = true then
          some ({ server := serverName, tool := some p.1, type := DiffType.toolRemoved
                  severity := DiffSeverity.warning
                  detail := "Tool \"" ++ p.1 ++ "\" was removed"
                  oldValue := none, newValue := none } : DiffEntry)
          else none) = [] := by
    rw [List.filterMap_eq_nil_iff]
    intro p hp
    obtain ⟨u, hu, rfl⟩ := List.mem_map.mp hp
    rw [hlast u hu]
    simp
  have hadded :
      (info.tools.map f).filterMap
        (fun v => if (recordGet (info.tools.map (fun u => (u.name, mkLockfileTool sha u))) v.name).isNone = true then
          some ({ server := serverName, tool := some v.name, type := DiffType.toolAdded
                  severity := DiffSeverity.warning
                  detail := "New tool \"" ++ v.name ++ "\" appeared"
                  oldValue := none, newValue := none } : DiffEntry)
          else none) = [] := by
    rw [List.filterMap_eq_nil_iff]
    intro v hv
    obtain ⟨u, hu, rfl⟩ := List.mem_map.mp hv
    rw [hfname u]
    rw [recordGet_of_mem_nodup (by simpa using hnodup)
      (List.mem_map_of_mem (fun u => (u.name, mkLockfileTool sha u)) hu)]
    simp
  rw [hremoved, hadded]
  simp only [List.nil_append]
  rw [List.flatMap_map]
  refine flatMap_if_single (p := fun u : LiveTool => u.name == t) ?point ?count
  case count =>
    exact countP_name_eq_one hnodup hex
  case point =>
    intro u hu
    rw [hlast u hu]
    dsimp only
    by_cases hut : u.name = t
    · have hdesc : u.description = some D1 := hD1 u hu hut
      have hbne : (hashValue sha (Json.str D1) != hashValue sha (Json.str D2)) = true := by
        rw [bne_iff_ne]
        exact hashValue_str_ne sha hinj (fun h => hne h.symm)
      have hcapsnil : (inferCapabilities D2 t none).filter
          (fun c => !((inferCapabilities D1 t u.inputSchema).contains c)) = [] := by
        rw [List.filter_eq_nil_iff]
        intro c hc
        have hmem : c ∈ inferCapabilities D1 t u.inputSchema := by
          have hin := hcaps u hu hut c hc
          rw [hdesc] at hin
          simp only [Option.getD_some] at hin
          rwa [hut] at hin
        simp only [List.elem_eq_true_of_mem hmem, Bool.not_true]
        exact fun h => Bool.false_ne_true h
      have hfu : f u = { u with description := some D2 } := by
        rw [hf]; simp [hut]
      simp only [hfu, mkLockfileTool, hdesc, Option.getD_some, diffLiveCapabilities, hut]
      simp only [hbne, bne_self_eq_false, Bool.false_eq_true, if_false, if_true,
        List.append_nil, List.nil_append, hcapsnil, List.length_nil, Nat.lt_irrefl,
        beq_self_eq_true]
    · have hfu : f u = u := by
        rw [hf]; simp [hut]
      have hcapsnil : (diffLiveCapabilities u.name u).filter
          (fun c => !((mkLockfileTool sha u).capabilities.contains c)) = [] := by
        rw [List.filter_eq_nil_iff]
        intro c hc
        have hmem : c ∈ (mkLockfileTool sha u).capabilities :=
          inferCapabilities_none_subset (u.description.getD "") u.name u.inputSchema c hc
        simp only [List.elem_eq_true_of_mem hmem, Bool.not_true]
        exact fun h => Bool.false_ne_true h
      simp only [hfu]
      simp only [mkLockfileTool] at hcapsnil ⊢
      simp only [bne_self_eq_false, Bool.false_eq_true, if_false, List.nil_append,
        hcapsnil, List.length_nil, Nat.lt_irrefl]
      simp only [show (u.name == t) = false by simpa using hut, Bool.false_eq_true, if_false]

/-- Claim C1 (corrected): if the baseline pins tool `t` with description
`D1` and the live server answers with the same tool set, schemas and
version but description `D2 ≠ D1`, the diff run yields exactly one entry —
type description-changed, severity critical, naming `t` — provided `D2`'s
keyword-inferred capabilities stay inside the pinned capability set (the
amendment; otherwise a second, capability-changed entry is also
produced).  The summary of the run is one critical, zero else. -/
theorem claim_C1_amended (sha : String → String) (hinj : Function.Injective sha)
    (serverName : String) (cfg : MCPServerConfig) (info : LiveServerInfo)
    (lockfile : Lockfile) (config : MCPConfig)
    (hserv : lockfile.servers = [(serverName, buildServerEntry sha cfg info)])
    (hcfg : config.servers = [(serverName, cfg)])
    (t D1 D2 : String)
    (hnodup : (info.tools.map LiveTool.name).Nodup)
    (hex : ∃ u ∈ info.tools, u.name = t)
    (hD1 : ∀ u ∈ info.tools, u.name = t → u.description = some D1)
    (hne : D2 ≠ D1)
    (hcaps : ∀ u ∈ info.tools, u.name = t →
      ∀ c ∈ inferCapabilities D2 t none,
        c ∈ inferCapabilities (u.description.getD "") u.name u.inputSchema) :
    (computeDiff sha
      (fun _ _ => Except.ok
        { info with tools := info.tools.map (fun u =>
            if u.name = t then { u with description := some D2 } else u) })
      lockfile config true).1.entries =
      [{ server := serverName, tool := some t, type := DiffType.descriptionChanged
         severity := DiffSeverity.critical
         detail := "Tool description changed (possible tool poisoning)"
         oldValue := some (hashValue sha (.str D1))
         newValue := some (hashValue sha (.str D2)) }] ∧
    (computeDiff sha
      (fun _ _ => Except.ok
        { info with tools := info.tools.map (fun u =>
            if u.name = t then { u with description := some D2 } else u) })
      lockfile config true).1.summary = ⟨1, 0, 0⟩ := by
  have hd := diffServerTools_desc_only sha hinj serverName cfg info t D1 D2
    hnodup hex hD1 hne hcaps
  have hg1 : recordGet [(serverName, cfg)] serverName = some cfg := by
    simp [recordGet]
  have hg2 : recordGet [(serverName, buildServerEntry sha cfg info)] serverName =
      some (buildServerEntry sha cfg info) := by
    simp [recordGet]
  have hent : (computeDiff sha
      (fun _ _ => Except.ok
        { info with tools := info.tools.map (fun u =>
            if u.name = t then { u with description := some D2 } else u) })
      lockfile config true).1.entries =
      [{ server := serverName, tool := some t, type := DiffType.descriptionChanged
         severity := DiffSeverity.critical
         detail := "Tool description changed (possible tool poisoning)"
         oldValue := some (hashValue sha (.str D1))
         newValue := some (hashValue sha (.str D2)) }] := by
    simp only [computeDiff]
    rw [hserv, hcfg]
    simp only [List.filterMap_cons, List.filterMap_nil, hg1, hg2, Option.isNone_some,
      Bool.false_eq_true, if_false, List.map_cons, List.map_nil, if_true,
      List.flatten, List.nil_append, List.append_nil]
    rw [hd]
  refine ⟨hent, ?_⟩
  have hsum : (computeDiff sha
      (fun _ _ => Except.ok
        { info with tools := info.tools.map (fun u =>
            if u.name = t then { u with description := some D2 } else u) })
      lockfile config true).1.summary =
      { critical := ((computeDiff sha
          (fun _ _ => Except.ok
            { info with tools := info.tools.map (fun u =>
                if u.name = t then { u with description := some D2 } else u) })
          lockfile config true).1.entries.filter
            (fun e => e.severity == DiffSeverity.critical)).length
        warning := ((computeDiff sha
          (fun _ _ => Except.ok
            { info with tools := info.tools.map (fun u =>
                if u.name = t then { u with description := some D2 } else u) })
          lockfile config true).1.entries.filter
            (fun e => e.severity == DiffSeverity.warning)).length
        info := ((computeDiff sha
          (fun _ _ => Except.ok
            { info with tools := info.tools.map (fun u =>
                if u.name = t then { u with description := some D2 } else u) })
          lockfile config true).1.entries.filter
            (fun e => e.severity == DiffSeverity.info)).length } := rfl
  rw [hsum, hent]
  rfl

/-- Counterexample for claim C1 as frozen: when the new description also
introduces a new keyword capability, the run contains a second, critical
capability-changed entry, so "exactly one entry" fails. -/
theorem claim_C1_counterexample :
    (computeDiff id
      (fun _ _ => Except.ok ⟨none, none, some "1.0.0",
        [⟨"read_file", some "delete stuff", none⟩]⟩)
      ⟨1, "", "", "", "", [("s", buildServerEntry id ⟨some "stdio", some "node", none, none, none⟩
        ⟨none, none, some "1.0.0", [⟨"read_file", some "zzz qqq", none⟩]⟩)]⟩
      ⟨"c", "p", [("s", ⟨some "stdio", some "node", none, none, none⟩)]⟩
      true).1.entries.length = 2 ∧
    ((computeDiff id
      (fun _ _ => Except.ok ⟨none, none, some "1.0.0",
        [⟨"read_file", some "delete stuff", none⟩]⟩)
      ⟨1, "", "", "", "", [("s", buildServerEntry id ⟨some "stdio", some "node", none, none, none⟩
        ⟨none, none, some "1.0.0", [⟨"read_file", some "zzz qqq", none⟩]⟩)]⟩
      ⟨"c", "p", [("s", ⟨some "stdio", some "node", none, none, none⟩)]⟩
      true).1.entries.filter (fun e => e.type == DiffType.descriptionChanged)).length = 1 ∧
    ((computeDiff id
      (fun _ _ => Except.ok ⟨none, none, some "1.0.0",
        [⟨"read_file", some "delete stuff", none⟩]⟩)
      ⟨1, "", "", "", "", [("s", buildServerEntry id ⟨some "stdio", some "node", none, none, none⟩
        ⟨none, none, some "1.0.0", [⟨"read_file", some "zzz qqq", none⟩]⟩)]⟩
      ⟨"c", "p", [("s", ⟨some "stdio", some "node", none, none, none⟩)]⟩
      true).1.entries.filter (fun e => e.type == DiffType.capabilityChanged)).length = 1 := by
  decide

/-- Witness for claim C1 (amended): a one-tool server whose description
changes to text with no capability keywords. -/
theorem claim_C1_amended_witness :
    (computeDiff id
      (fun _ _ => Except.ok
        { (⟨none, none, some "1.0.0", [⟨"read_file", some "zzz qqq", none⟩]⟩ : LiveServerInfo) with
          tools := ([⟨"read_file", some "zzz qqq", none⟩] : List LiveTool).map (fun u =>
            if u.name = "read_file" then { u with description := some "yyy www" } else u) })
      ⟨1, "", "", "", "",
        [("s", buildServerEntry id ⟨some "stdio", some "node", none, none, none⟩
          ⟨none, none, some "1.0.0", [⟨"read_file", some "zzz qqq", none⟩]⟩)]⟩
      ⟨"c", "p", [("s", ⟨some "stdio", some "node", none, none, none⟩)]⟩
      true).1.entries =
      [{ server := "s", tool := some "read_file", type := DiffType.descriptionChanged
         severity := DiffSeverity.critical
         detail := "Tool description changed (possible tool poisoning)"
         oldValue := some (hashValue id (.str "zzz qqq"))
         newValue := some (hashValue id (.str "yyy www")) }] ∧
    (computeDiff id
      (fun _ _ => Except.ok
        { (⟨none, none, some "1.0.0", [⟨"read_file", some "zzz qqq", none⟩]⟩ : LiveServerInfo) with
          tools := ([⟨"read_file", some "zzz qqq", none⟩] : List LiveTool).map (fun u =>
            if u.name = "read_file" then { u with description := some "yyy www" } else u) })
      ⟨1, "", "", "", "",
        [("s", buildServerEntry id ⟨some "stdio", some "node", none, none, none⟩
          ⟨none, none, some "1.0.0", [⟨"read_file", some "zzz qqq", none⟩]⟩)]⟩
      ⟨"c", "p", [("s", ⟨some "stdio", some "node", none, none, none⟩)]⟩
      true).1.summary = ⟨1, 0, 0⟩ :=
  claim_C1_amended id (fun _ _ h => h) "s" ⟨some "stdio", some "node", none, none, none⟩
    ⟨none, none, some "1.0.0", [⟨"read_file", some "zzz qqq", none⟩]⟩
    ⟨1, "", "", "", "",
      [("s", buildServerEntry id ⟨some "stdio", some "node", none, none, none⟩
        ⟨none, none, some "1.0.0", [⟨"read_file", some "zzz qqq", none⟩]⟩)]⟩
    ⟨"c", "p", [("s", ⟨some "stdio", some "node", none, none, none⟩)]⟩
    rfl rfl "read_file" "zzz qqq" "yyy www" (by decide)
    ⟨⟨"read_file", some "zzz qqq", none⟩, List.mem_singleton.mpr rfl, rfl⟩
    (by
      intro u hu h
      rcases List.mem_singleton.mp hu with rfl
      rfl)
    (by decide)
    (by
      intro u hu h c hc
      have hnil : inferCapabilities "yyy www" "read_file" none = [] := by decide
      rw [hnil] at hc
      cases hc)

/-! ## Claim C7: lockfile loading -/

mutual

theorem stripJson_noBanned : ∀ v : Json, noBannedKeys (stripJson v) = true
  | .null => rfl
  | .undefined => rfl
  | .bool _ => rfl
  | .num _ => rfl
  | .str _ => rfl
  | .arr xs => by
    simp only [stripJson, noBannedKeys]
    exact stripList_noBanned xs
  | .obj fs => by
    simp only [stripJson, noBannedKeys]
    exact stripPairs_noBanned fs

theorem stripList_noBanned : ∀ xs : List Json, noBannedKeysList (stripList xs) = true
  | [] => rfl
  | x :: xs => by
    simp only [stripList, noBannedKeysList]
    rw [stripJson_noBanned x, stripList_noBanned xs]
    rfl

theorem stripPairs_noBanned : ∀ ps : List (String × Json),
    noBannedKeysPairs (stripPairs ps) = true
  | [] => rfl
  | p :: ps => by
    rw [stripPairs]
    by_cases h : isDangerousKey p.1
    · rw [if_pos h]
      exact stripPairs_noBanned ps
    · rw [if_neg h]
      simp only [noBannedKeysPairs, h, stripJson_noBanned p.2, stripPairs_noBanned ps]
      rfl

end

theorem jsTypeof_number (x : Json) (h : jsTypeof x = "number") : ∃ v, x = .num v := by
  cases x with
  | num v => exact ⟨v, rfl⟩
  | null => simp [jsTypeof] at h
  | undefined => simp [jsTypeof] at h
  | bool b => simp [jsTypeof] at h
  | str s => simp [jsTypeof] at h
  | arr xs => simp [jsTypeof] at h
  | obj fs => simp [jsTypeof] at h

/-- Claim C7 (corrected): readLockfile's actual contract — a missing file
and an unparseable file both load as `null`; a parsed value failing the
structural check (truthy object, numeric `version`, `servers` of JS type
"object" and not an array) loads as `null`; past that check a version
newer than the supported one is a hard error and otherwise the stripped
value is returned, with every `__proto__`/`constructor`/`prototype` key
removed.  (The structural check does **not** reject a JSON-null `servers`
field, and the version error is only reachable for structurally valid
files — the two points on which the frozen claim fails.) -/
theorem claim_C7_amended (file : LockfileFile) :
    (file = .missing → readLockfile file = .ok none) ∧
    (file = .content none → readLockfile file = .ok none) ∧
    (∀ raw, file = .content (some raw) →
      (lockfileStructOk (stripJson raw) = false → readLockfile file = .ok none) ∧
      (∀ v, lockfileStructOk (stripJson raw) = true →
        lockfileVersionOf (stripJson raw) = some v → LOCKFILE_VERSION < v →
        readLockfile file = .error ("Lockfile version " ++ toString v ++
          " is newer than supported (" ++ toString LOCKFILE_VERSION ++
          "). Please upgrade mcp-lock.")) ∧
      (∀ v, lockfileStructOk (stripJson raw) = true →
        lockfileVersionOf (stripJson raw) = some v → v ≤ LOCKFILE_VERSION →
        readLockfile file = .ok (some (stripJson raw)) ∧
          noBannedKeys (stripJson raw) = true)) := by
  refine ⟨fun h => by rw [h]; rfl, fun h => by rw [h]; rfl, ?_⟩
  intro raw hf
  subst hf
  refine ⟨?partA, ?partB, ?partC⟩
  case partA =>
    intro hso
    simp only [readLockfile]
    split_ifs with h1 h2 h3 h4 h5
    · rfl
    · rfl
    · rfl
    · rfl
    · rfl
    · exfalso
      have c1 : jsFalsy (stripJson raw) = false := by simpa using h1
      have c2 : jsTypeof (stripJson raw) = "object" := by simpa using h2
      have c3 : jsTypeof (jsGet (stripJson raw) "version") = "number" := by simpa using h3
      have c4 : jsTypeof (jsGet (stripJson raw) "servers") = "object" := by simpa using h4
      have c5 : jsIsArray (jsGet (stripJson raw) "servers") = false := by simpa using h5
      rw [lockfileStructOk, c1, c2, c3, c4, c5] at hso
      simp at hso
  case partB =>
    intro v hso hv hlt
    rw [lockfileStructOk] at hso
    obtain ⟨h14, harrB⟩ := Bool.and_eq_true_iff.mp hso
    obtain ⟨h13, hstypB⟩ := Bool.and_eq_true_iff.mp h14
    obtain ⟨h12, hvnumB⟩ := Bool.and_eq_true_iff.mp h13
    obtain ⟨hnf, htypB⟩ := Bool.and_eq_true_iff.mp h12
    have hfalsy : jsFalsy (stripJson raw) = false := by simpa using hnf
    have htyp : jsTypeof (stripJson raw) = "object" := by simpa using htypB
    have hvnum : jsTypeof (jsGet (stripJson raw) "version") = "number" := by simpa using hvnumB
    have hstyp : jsTypeof (jsGet (stripJson raw) "servers") = "object" := by simpa using hstypB
    have harr : jsIsArray (jsGet (stripJson raw) "servers") = false := by simpa using harrB
    simp only [readLockfile]
    rw [if_neg (by simp [hfalsy])]
    rw [if_neg (by simp [htyp])]
    rw [if_neg (by simp [hvnum])]
    rw [if_neg (by simp [hstyp])]
    rw [if_neg (by simp [harr])]
    rw [lockfileVersionOf] at hv
    obtain ⟨w, hw⟩ := jsTypeof_number _ hvnum
    rw [hw] at hv ⊢
    dsimp only at hv ⊢
    cases Option.some.inj hv
    rw [if_pos hlt]
  case partC =>
    intro v hso hv hle
    refine ⟨?_, stripJson_noBanned raw⟩
    rw [lockfileStructOk] at hso
    obtain ⟨h14, harrB⟩ := Bool.and_eq_true_iff.mp hso
    obtain ⟨h13, hstypB⟩ := Bool.and_eq_true_iff.mp h14
    obtain ⟨h12, hvnumB⟩ := Bool.and_eq_true_iff.mp h13
    obtain ⟨hnf, htypB⟩ := Bool.and_eq_true_iff.mp h12
    have hfalsy : jsFalsy (stripJson raw) = false := by simpa using hnf
    have htyp : jsTypeof (stripJson raw) = "object" := by simpa using htypB
    have hvnum : jsTypeof (jsGet (stripJson raw) "version") = "number" := by simpa using hvnumB
    have hstyp : jsTypeof (jsGet (stripJson raw) "servers") = "object" := by simpa using hstypB
    have harr : jsIsArray (jsGet (stripJson raw) "servers") = false := by simpa using harrB
    simp only [readLockfile]
    rw [if_neg (by simp [hfalsy])]
    rw [if_neg (by simp [htyp])]
    rw [if_neg (by simp [hvnum])]
    rw [if_neg (by simp [hstyp])]
    rw [if_neg (by simp [harr])]
    rw [lockfileVersionOf] at hv
    obtain ⟨w, hw⟩ := jsTypeof_number _ hvnum
    rw [hw] at hv ⊢
    dsimp only at hv ⊢
    cases Option.some.inj hv
    rw [if_neg (by omega)]

/-- Counterexample for claim C7 as frozen: a baseline whose `servers`
field is JSON `null` — not a map — passes validation and is returned,
instead of the claimed "invalid" (`null`) outcome. -/
theorem claim_C7_counterexample :
    readLockfile (.content (some (.obj [("version", Json.num 1), ("servers", Json.null)]))) =
      Except.ok (some (Json.obj [("version", Json.num 1), ("servers", Json.null)])) ∧
    readLockfile (.content (some (.obj [("version", Json.num 1), ("servers", Json.null)]))) ≠
      Except.ok none := by
  refine ⟨rfl, fun h => ?_⟩
  exact Option.noConfusion (Except.ok.inj h)

/-- Witness for claim C7 (amended): a version-2 file hard-fails; a valid
version-1 file with a `__proto__` key loads with the key stripped. -/
theorem claim_C7_amended_witness :
    readLockfile (.content (some (.obj [("version", Json.num 2), ("servers", Json.obj [])]))) =
      .error "Lockfile version 2 is newer than supported (1). Please upgrade mcp-lock." ∧
    (readLockfile (.content (some (.obj [("version", Json.num 1), ("servers", Json.obj []),
        ("__proto__", Json.num 7)]))) =
      .ok (some (stripJson (.obj [("version", Json.num 1), ("servers", Json.obj []),
        ("__proto__", Json.num 7)]))) ∧
      noBannedKeys (stripJson (.obj [("version", Json.num 1), ("servers", Json.obj []),
        ("__proto__", Json.num 7)])) = true) :=
  ⟨((claim_C7_amended (.content (some (.obj [("version", Json.num 2),
      ("servers", Json.obj [])])))).2.2 _ rfl).2.1 2 (by decide) rfl (by decide),
   ((claim_C7_amended (.content (some (.obj [("version", Json.num 1), ("servers", Json.obj []),
      ("__proto__", Json.num 7)])))).2.2 _ rfl).2.2 1 (by decide) rfl (by decide)⟩

/-! ## Claim C5: canonical hashing is stable under object key order -/

theorem listCharLe_antisymm : ∀ a b : List Char,
    listCharLe a b = true → listCharLe b a = true → a = b
  | [], [], _, _ => rfl
  | [], _ :: _, _, hba => by simp [listCharLe] at hba
  | _ :: _, [], hab, _ => by simp [listCharLe] at hab
  | c :: cs, d :: ds, hab, hba => by
    rw [listCharLe] at hab hba
    by_cases h1 : c.toNat < d.toNat
    · rw [if_neg (by omega), if_pos h1] at hba
      cases hba
    · by_cases h2 : d.toNat < c.toNat
      · rw [if_neg h1, if_pos h2] at hab
        cases hab
      · rw [if_neg h1, if_neg h2] at hab
        rw [if_neg h2, if_neg h1] at hba
        have hcd : c = d := charToNat_inj (by omega)
        rw [hcd, listCharLe_antisymm cs ds hab hba]

theorem strLe_antisymm {a b : String} (hab : strLe a b = true) (hba : strLe b a = true) :
    a = b :=
  String.ext (listCharLe_antisymm a.data b.data hab hba)

theorem insertionSort_key_eq {l₁ l₂ : List (String × String)}
    (hperm : l₁.Perm l₂) (hnodup : (l₁.map Prod.fst).Nodup) :
    List.insertionSort keyLe l₁ = List.insertionSort keyLe l₂ := by
  have hs1 : List.Sorted keyLe (List.insertionSort keyLe l₁) :=
    List.sorted_insertionSort keyLe l₁
  have hs2 : List.Sorted keyLe (List.insertionSort keyLe l₂) :=
    List.sorted_insertionSort keyLe l₂
  have hp : (List.insertionSort keyLe l₁).Perm (List.insertionSort keyLe l₂) :=
    ((List.perm_insertionSort keyLe l₁).trans hperm).trans
      (List.perm_insertionSort keyLe l₂).symm
  have hn1 : ((List.insertionSort keyLe l₁).map Prod.fst).Nodup :=
    (((List.perm_insertionSort keyLe l₁).map Prod.fst).nodup_iff).mpr hnodup
  have hn2 : ((List.insertionSort keyLe l₂).map Prod.fst).Nodup := by
    refine ((hp.map Prod.fst).nodup_iff).mp hn1
  have hpw1 : List.Pairwise (fun p q : String × String => p.1 ≠ q.1)
      (List.insertionSort keyLe l₁) := List.pairwise_map.mp hn1
  have hpw2 : List.Pairwise (fun p q : String × String => p.1 ≠ q.1)
      (List.insertionSort keyLe l₂) := List.pairwise_map.mp hn2
  exact @List.eq_of_perm_of_sorted _ (fun p q => keyLe p q ∧ p.1 ≠ q.1)
    ⟨fun a b h1 h2 => absurd (strLe_antisymm h1.1 h2.1) h1.2⟩
    _ _ hp (hs1.and hpw1) (hs2.and hpw2)

theorem canonPairs_eq_map : ∀ l : List (String × Json),
    canonPairs l = l.map (fun p => (p.1, canonicalize p.2))
  | [] => rfl
  | p :: ps => by rw [canonPairs, canonPairs_eq_map ps, List.map_cons]

mutual

theorem canonStructEq : ∀ {a b : Json}, StructEq a b → wfJson a = true →
    canonicalize a = canonicalize b
  | _, _, .nulls a b ha hb, _ => by
    rcases ha with rfl | rfl <;> rcases hb with rfl | rfl <;> rfl
  | _, _, .bool b, _ => rfl
  | _, _, .num n, _ => rfl
  | _, _, .str s, _ => rfl
  | _, _, .arr xs ys hxy, hwf => by
    rw [canonicalize, canonicalize]
    rw [canonListStructEq hxy (by simpa [wfJson] using hwf)]
  | _, _, .obj fs mid gs hpairs hperm, hwf => by
    rw [canonicalize, canonicalize]
    have hwf2 : wfPairsVals fs = true := by
      have := hwf
      rw [wfJson, Bool.and_eq_true_iff] at this
      exact this.2
    have hnodup : (fs.map Prod.fst).Nodup := by
      have := hwf
      rw [wfJson, Bool.and_eq_true_iff] at this
      simpa using this.1
    have heq : canonPairs fs = canonPairs mid := canonPairsStructEq hpairs hwf2
    have hpermC : (canonPairs mid).Perm (canonPairs gs) := by
      rw [canonPairs_eq_map, canonPairs_eq_map]
      exact hperm.map _
    have hnodupC : ((canonPairs fs).map Prod.fst).Nodup := by
      rw [canonPairs_eq_map, List.map_map]
      simpa using hnodup
    rw [insertionSort_key_eq (heq ▸ hpermC) hnodupC]

theorem canonListStructEq : ∀ {xs ys : List Json}, StructEqList xs ys →
    wfList xs = true → canonList xs = canonList ys
  | _, _, .nil, _ => rfl
  | _, _, .cons x y xs ys hxy htail, hwf => by
    rw [canonList, canonList]
    rw [wfList, Bool.and_eq_true_iff] at hwf
    rw [canonStructEq hxy hwf.1, canonListStructEq htail hwf.2]

theorem canonPairsStructEq : ∀ {ps qs : List (String × Json)}, StructEqPairs ps qs →
    wfPairsVals ps = true → canonPairs ps = canonPairs qs
  | _, _, .nil, _ => rfl
  | _, _, .cons p q ps qs hkey hval htail, hwf => by
    rw [canonPairs, canonPairs]
    rw [wfPairsVals, Bool.and_eq_true_iff] at hwf
    rw [canonStructEq hval hwf.1, canonPairsStructEq htail hwf.2, hkey]

end

/-- Two hashes agreeing forces the canonical forms to agree, when the hash
core is injective. -/
theorem hashValue_eq_canon {sha : String → String} (hinj : Function.Injective sha)
    {v₁ v₂ : Json} (h : hashValue sha v₁ = hashValue sha v₂) :
    canonicalize v₁ = canonicalize v₂ := by
  unfold hashValue at h
  have h2 : (HASH_ALGORITHM ++ ":").data ++ (sha (canonicalize v₁)).data =
      (HASH_ALGORITHM ++ ":").data ++ (sha (canonicalize v₂)).data := by
    have := congrArg String.data h
    simpa [String.append_assoc] using this
  exact hinj (String.ext (List.append_cancel_left h2))

/-- Claim C5 (confirmed): canonical hashing is invariant under object key
order (and under null/undefined identification), reflexive, and prefixed
`sha256:`, while array element order matters.  The external SHA-256 core
is an abstract parameter; the inequality conjunct assumes it injective
(collision-freeness), and key-order invariance needs the JS-object
invariant that keys repeat nowhere (`wfJson`). -/
theorem claim_C5_canonical_hashing (sha : String → String)
    (hinj : Function.Injective sha) :
    (∀ v₁ v₂ : Json, StructEq v₁ v₂ → wfJson v₁ = true →
      hashValue sha v₁ = hashValue sha v₂) ∧
    (∀ v : Json, hashValue sha v = hashValue sha v) ∧
    (∀ v : Json, ∃ rest, hashValue sha v = "sha256:" ++ rest) ∧
    hashValue sha (.obj [("a", .num 1), ("b", .num 2)]) =
      hashValue sha (.obj [("b", .num 2), ("a", .num 1)]) ∧
    hashValue sha .null = hashValue sha .undefined ∧
    hashValue sha (.arr [.num 1, .num 2]) ≠ hashValue sha (.arr [.num 2, .num 1]) := by
  refine ⟨?_, fun v => rfl, fun v => ⟨sha (canonicalize v), rfl⟩, ?_, rfl, ?_⟩
  · intro v₁ v₂ hse hwf
    unfold hashValue
    rw [canonStructEq hse hwf]
  · show HASH_ALGORITHM ++ ":" ++ sha (canonicalize (.obj [("a", .num 1), ("b", .num 2)])) =
      HASH_ALGORITHM ++ ":" ++ sha (canonicalize (.obj [("b", .num 2), ("a", .num 1)]))
    rw [show canonicalize (.obj [("a", .num 1), ("b", .num 2)]) =
      canonicalize (.obj [("b", .num 2), ("a", .num 1)]) from by decide]
  · intro h
    have := hashValue_eq_canon hinj h
    revert this
    decide

/-- Witness for claim C5 at the identity hash core, with an explicit
structural-equality derivation for the reordered object. -/
theorem claim_C5_canonical_hashing_witness :
    hashValue id (.obj [("a", .num 1), ("b", .num 2)]) =
      hashValue id (.obj [("b", .num 2), ("a", .num 1)]) ∧
    wfJson (.obj [("a", .num 1), ("b", .num 2)]) = true ∧
    hashValue id .null = hashValue id .undefined ∧
    hashValue id (.arr [.num 1, .num 2]) ≠ hashValue id (.arr [.num 2, .num 1]) :=
  ⟨(claim_C5_canonical_hashing id (fun _ _ h => h)).1
      (.obj [("a", .num 1), ("b", .num 2)]) (.obj [("b", .num 2), ("a", .num 1)])
      (StructEq.obj _ _ _
        (StructEqPairs.cons _ _ _ _ rfl (StructEq.num 1)
          (StructEqPairs.cons _ _ _ _ rfl (StructEq.num 2) StructEqPairs.nil))
        (List.Perm.swap ("b", Json.num 2) ("a", Json.num 1) []))
      (by decide),
   by decide,
   (claim_C5_canonical_hashing id (fun _ _ h => h)).2.2.2.2.1,
   (claim_C5_canonical_hashing id (fun _ _ h => h)).2.2.2.2.2⟩

/-! ## Claim C6: the tool-shadowing pass of runScan -/

theorem recordPush_get_self (k v : String) : ∀ m : List (String × List String),
    recordGet (recordPush m k v) k = some ((recordGet m k).getD [] ++ [v])
  | [] => by
    unfold recordPush recordGet
    rw [List.find?_cons_of_pos _ (by simp)]
    rfl
  | p :: ps => by
    by_cases h : (p.1 == k) = true
    · rw [recordPush, if_pos h]
      unfold recordGet
      rw [List.find?_cons_of_pos _ (by exact h), List.find?_cons_of_pos _ (by exact h)]
      rfl
    · rw [recordPush, if_neg h]
      unfold recordGet
      rw [List.find?_cons_of_neg _ (by exact h), List.find?_cons_of_neg _ (by exact h)]
      exact recordPush_get_self k v ps

theorem recordPush_get_other (k v k' : String) (hne : (k == k') = false) :
    ∀ m : List (String × List String),
    recordGet (recordPush m k v) k' = recordGet m k'
  | [] => by
    unfold recordPush recordGet
    rw [List.find?_cons_of_neg _ (by simp_all)]
  | p :: ps => by
    by_cases h : (p.1 == k) = true
    · have hp1 : p.1 = k := by simpa using h
      rw [recordPush, if_pos h]
      unfold recordGet
      rw [List.find?_cons_of_neg _ (by simp [hp1, hne]),
          List.find?_cons_of_neg _ (by simp [hp1, hne])]
    · rw [recordPush, if_neg h]
      by_cases h2 : (p.1 == k') = true
      · unfold recordGet
        rw [List.find?_cons_of_pos _ (by exact h2), List.find?_cons_of_pos _ (by exact h2)]
      · unfold recordGet
        rw [List.find?_cons_of_neg _ (by exact h2), List.find?_cons_of_neg _ (by exact h2)]
        have := recordPush_get_other k v k' hne ps
        unfold recordGet at this
        exact this

theorem recordPush_keys (k v : String) : ∀ m : List (String × List String),
    (recordPush m k v).map Prod.fst =
      if k ∈ m.map Prod.fst then m.map Prod.fst else m.map Prod.fst ++ [k]
  | [] => by simp [recordPush]
  | p :: ps => by
    by_cases h : (p.1 == k) = true
    · have hp1 : p.1 = k := by simpa using h
      rw [recordPush, if_pos h]
      simp [hp1]
    · have hp1 : p.1 ≠ k := by simpa using h
      rw [recordPush, if_neg h, List.map_cons, recordPush_keys k v ps, List.map_cons]
      by_cases hm : k ∈ ps.map Prod.fst
      · rw [if_pos hm, if_pos (by simp [hm])]
      · rw [if_neg hm, if_neg (by simp [hm, Ne.symm hp1]), List.cons_append]

theorem recordPush_keys_nodup {m : List (String × List String)} (k v : String)
    (h : (m.map Prod.fst).Nodup) : ((recordPush m k v).map Prod.fst).Nodup := by
  rw [recordPush_keys]
  by_cases hm : k ∈ m.map Prod.fst
  · rwa [if_pos hm]
  · rw [if_neg hm]
    simp [List.nodup_append, h, hm]

theorem registerTools_entry (s name : String) :
    ∀ (ts : List LiveTool) (m : List (String × List String)),
    (ts.map (fun t => t.name)).Nodup →
    (recordGet (ts.foldl (fun acc t => recordPush acc t.name s) m) name).getD [] =
      (recordGet m name).getD [] ++ (if ts.any (fun t => t.name == name) then [s] else [])
  | [], m, _ => by simp
  | t :: ts, m, hnd => by
    obtain ⟨hhead, htail⟩ := List.nodup_cons.mp hnd
    rw [List.foldl_cons]
    by_cases h : (t.name == name) = true
    · have hn : t.name = name := by simpa using h
      have hnone : ts.any (fun u => u.name == name) = false := by
        rw [List.any_eq_false]
        intro u hu hun
        have hun' : u.name = name := by simpa using hun
        have : t.name ∈ ts.map (fun t => t.name) := by
          rw [hn, ← hun']
          exact List.mem_map_of_mem _ hu
        exact hhead this
      rw [registerTools_entry s name ts (recordPush m t.name s) htail, hnone, hn,
          recordPush_get_self]
      simp [List.any_cons, h]
    · have hf : (t.name == name) = false := Bool.eq_false_iff.mpr h
      rw [registerTools_entry s name ts (recordPush m t.name s) htail,
          recordPush_get_other t.name s name hf]
      simp [List.any_cons, hf]

theorem registerServer_entry (connector : Connector) (name : String)
    (m : List (String × List String)) (p : String × MCPServerConfig)
    (hnd : ∀ info, connector p.1 p.2 = .ok info → (info.tools.map (fun t => t.name)).Nodup) :
    (recordGet (registerServer connector m p) name).getD [] =
      (recordGet m name).getD [] ++
        (match connector p.1 p.2 with
         | .ok info => if info.tools.any (fun t => t.name == name) then [p.1] else []
         | .error _ => []) := by
  unfold registerServer
  cases hc : connector p.1 p.2 with
  | ok info => exact registerTools_entry p.1 name info.tools m (hnd info hc)
  | error e => simp

theorem foldRegister_entry (connector : Connector) (name : String) :
    ∀ (servers : List (String × MCPServerConfig)) (m : List (String × List String)),
    (∀ p ∈ servers, ∀ info, connector p.1 p.2 = .ok info →
      (info.tools.map (fun t => t.name)).Nodup) →
    (recordGet (servers.foldl (registerServer connector) m) name).getD [] =
      (recordGet m name).getD [] ++
        servers.filterMap (fun p =>
          match connector p.1 p.2 with
          | .ok info => if info.tools.any (fun t => t.name == name) then some p.1 else none
          | .error _ => none)
  | [], m, _ => by simp
  | s :: ss, m, hnd => by
    rw [List.foldl_cons,
        foldRegister_entry connector name ss (registerServer connector m s)
          (fun p hp => hnd p (List.mem_cons_of_mem s hp)),
        registerServer_entry connector name m s (hnd s (List.mem_cons_self s ss)),
        List.filterMap_cons]
    cases hc : connector s.1 s.2 with
    | ok info =>
      by_cases h : info.tools.any (fun t => t.name == name) = true
      · simp [h, List.append_assoc]
      · simp [h]
    | error e => simp

theorem foldPush_keys_nodup (s : String) : ∀ (ts : List LiveTool)
    (m : List (String × List String)), (m.map Prod.fst).Nodup →
    (((ts.foldl (fun acc t => recordPush acc t.name s) m).map Prod.fst).Nodup)
  | [], _, h => h
  | t :: ts, m, h => by
    rw [List.foldl_cons]
    exact foldPush_keys_nodup s ts _ (recordPush_keys_nodup t.name s h)

theorem foldRegister_keys_nodup (connector : Connector) :
    ∀ (servers : List (String × MCPServerConfig)) (m : List (String × List String)),
    (m.map Prod.fst).Nodup →
    (((servers.foldl (registerServer connector) m).map Prod.fst).Nodup)
  | [], _, h => h
  | s :: ss, m, h => by
    rw [List.foldl_cons]
    refine foldRegister_keys_nodup connector ss _ ?_
    unfold registerServer
    cases connector s.1 s.2 with
    | ok info => exact foldPush_keys_nodup s.1 info.tools m h
    | error e => exact h

theorem shadowFindings_filter (name : String) :
    ∀ m : List (String × List String), (m.map Prod.fst).Nodup →
    ((m.filterMap (fun p =>
        if 1 < p.2.length then some (mkShadowFinding p.1 p.2) else none)).filter
      (fun f => f.ruleId == "tool-shadowing" && f.tool == some name)) =
      (match recordGet m name with
       | some l => if 1 < l.length then [mkShadowFinding name l] else []
       | none => [])
  | [], _ => rfl
  | p :: ps, hnd => by
    obtain ⟨hhead, htail⟩ := List.nodup_cons.mp hnd
    by_cases hk : p.1 = name
    · subst hk
      have hget : recordGet (p :: ps) p.1 = some p.2 := by
        unfold recordGet
        rw [List.find?_cons_of_pos _ (by simp)]
        rfl
      have hrest : ((ps.filterMap (fun q =>
          if 1 < q.2.length then some (mkShadowFinding q.1 q.2) else none)).filter
            (fun f => f.ruleId == "tool-shadowing" && f.tool == some p.1)) = [] := by
        rw [List.filter_eq_nil_iff]
        intro f hf
        obtain ⟨q, hq, hqf⟩ := List.mem_filterMap.mp hf
        by_cases hl : 1 < q.2.length
        · rw [if_pos hl] at hqf
          obtain rfl := Option.some.inj hqf
          have hq1 : q.1 ≠ p.1 := fun hc => hhead (hc ▸ List.mem_map_of_mem Prod.fst hq)
          simp [mkShadowFinding, hq1]
        · rw [if_neg hl] at hqf
          cases hqf
      rw [List.filterMap_cons, hget]
      by_cases hl : 1 < p.2.length
      · rw [if_pos hl]
        dsimp only
        rw [if_pos hl, List.filter_cons_of_pos (by simp [mkShadowFinding]), hrest]
      · rw [if_neg hl]
        dsimp only
        rw [if_neg hl]
        exact hrest
    · have hget : recordGet (p :: ps) name = recordGet ps name := by
        unfold recordGet
        rw [List.find?_cons_of_neg _ (by simp [hk])]
      rw [List.filterMap_cons, hget]
      by_cases hl : 1 < p.2.length
      · rw [if_pos hl]
        dsimp only
        rw [List.filter_cons_of_neg (by simp [mkShadowFinding, hk])]
        exact shadowFindings_filter name ps htail
      · rw [if_neg hl]
        dsimp only
        exact shadowFindings_filter name ps htail

theorem configRuleFindings_prop (rules : List Rule) (P : ScanFinding → String → Prop)
    (hP : ∀ r ∈ rules, ∀ ctx fs, r.check ctx = some fs → ∀ f ∈ fs, P f ctx.serverName)
    (name : String) (cfg : MCPServerConfig) :
    ∀ f ∈ configRuleFindings rules name cfg, P f name := by
  intro f hf
  unfold configRuleFindings at hf
  obtain ⟨r, hr, hrf⟩ := List.mem_flatMap.mp hf
  by_cases hs : (r.scope == RuleScope.config) = true
  · rw [if_pos hs] at hrf
    cases hc : r.check { serverName := name, config := cfg, tool := none, capabilities := none } with
    | none =>
      rw [hc] at hrf
      exact absurd hrf (by simp)
    | some fs =>
      rw [hc] at hrf
      exact hP r hr _ fs hc f (by simpa using hrf)
  · rw [if_neg hs] at hrf
    exact absurd hrf (by simp)

theorem toolRuleFindings_prop (rules : List Rule) (P : ScanFinding → String → Prop)
    (hP : ∀ r ∈ rules, ∀ ctx fs, r.check ctx = some fs → ∀ f ∈ fs, P f ctx.serverName)
    (name : String) (cfg : MCPServerConfig) (t : LiveTool) :
    ∀ f ∈ toolRuleFindings rules name cfg t, P f name := by
  intro f hf
  unfold toolRuleFindings at hf
  obtain ⟨r, hr, hrf⟩ := List.mem_flatMap.mp hf
  by_cases hs : (r.scope == RuleScope.tool) = true
  · rw [if_pos hs] at hrf
    cases hc : r.check ⟨name, cfg, some t, some (scanToolCapabilities t)⟩ with
    | none =>
      rw [hc] at hrf
      exact absurd hrf (by simp)
    | some fs =>
      rw [hc] at hrf
      exact hP r hr _ fs hc f (by simpa using hrf)
  · rw [if_neg hs] at hrf
    exact absurd hrf (by simp)

theorem serverFindings_prop (rules : List Rule) (connector : Connector)
    (P : ScanFinding → String → Prop)
    (hP : ∀ r ∈ rules, ∀ ctx fs, r.check ctx = some fs → ∀ f ∈ fs, P f ctx.serverName)
    (p : String × MCPServerConfig) :
    ∀ f ∈ serverFindings rules connector p, P f p.1 := by
  intro f hf
  unfold serverFindings at hf
  rcases List.mem_append.mp hf with hf | hf
  · exact configRuleFindings_prop rules P hP p.1 p.2 f hf
  · cases hc : connector p.1 p.2 with
    | ok info =>
      rw [hc] at hf
      obtain ⟨t, ht, htf⟩ := List.mem_flatMap.mp hf
      exact toolRuleFindings_prop rules P hP p.1 p.2 t f htf
    | error e =>
      rw [hc] at hf
      exact absurd hf (by simp)

/-- Claim C6 (corrected): in one run, the findings `runScan` returns with
rule id `tool-shadowing` and a given tool name are exactly one finding
listing all claimant servers when at least two servers expose the name,
and nothing when at most one does — but only when the requested minimum
severity does not exceed `high`, since the (fixed-severity-`high`)
shadowing finding passes through the final severity filter; with
`minSeverity = critical` it is silently dropped (see the counterexample).
Hypotheses: the configured rules never forge the reserved
`tool-shadowing` rule id, and each server lists distinct tool names (a
server repeating a name would be double-counted as its own shadower). -/
theorem claim_C6_amended (rules : List Rule) (connector : Connector) (config : MCPConfig)
    (minSev : FindingSeverity) (name : String)
    (hno : ∀ r ∈ rules, ∀ ctx fs, r.check ctx = some fs → ∀ f ∈ fs,
      f.ruleId ≠ "tool-shadowing")
    (hmin : severityIdx minSev ≤ severityIdx FindingSeverity.high)
    (hnd : ∀ p ∈ config.servers, ∀ info, connector p.1 p.2 = .ok info →
      (info.tools.map (fun t => t.name)).Nodup) :
    ((runScan rules connector config minSev).1.findings.filter
        (fun f => f.ruleId == "tool-shadowing" && f.tool == some name)) =
      (if 2 ≤ (claimants connector config name).length then
        [mkShadowFinding name (claimants connector config name)]
      else []) := by
  have hrun : (runScan rules connector config minSev).1.findings =
      severityFilter minSev
        (config.servers.flatMap (serverFindings rules connector) ++
          (config.servers.foldl (registerServer connector) []).filterMap (fun p =>
            if 1 < p.2.length then some (mkShadowFinding p.1 p.2) else none)) := rfl
  rw [hrun]
  unfold severityFilter
  rw [List.filter_append, List.filter_append]
  have hA : ((config.servers.flatMap (serverFindings rules connector)).filter
      (fun f => decide (severityIdx minSev ≤ severityIdx f.severity))).filter
        (fun f => f.ruleId == "tool-shadowing" && f.tool == some name) = [] := by
    rw [List.filter_eq_nil_iff]
    intro f hf
    obtain ⟨p, hp, hpf⟩ := List.mem_flatMap.mp (List.mem_filter.mp hf).1
    have hne : f.ruleId ≠ "tool-shadowing" :=
      serverFindings_prop rules connector (fun f _ => f.ruleId ≠ "tool-shadowing")
        (fun r hr ctx fs hc f hf => hno r hr ctx fs hc f hf) p f hpf
    simp [hne]
  have hsev : ((config.servers.foldl (registerServer connector) []).filterMap (fun p =>
      if 1 < p.2.length then some (mkShadowFinding p.1 p.2) else none)).filter
        (fun f => decide (severityIdx minSev ≤ severityIdx f.severity)) =
      (config.servers.foldl (registerServer connector) []).filterMap (fun p =>
        if 1 < p.2.length then some (mkShadowFinding p.1 p.2) else none) := by
    rw [List.filter_eq_self]
    intro f hf
    obtain ⟨q, hq, hqf⟩ := List.mem_filterMap.mp hf
    by_cases hl : 1 < q.2.length
    · rw [if_pos hl] at hqf
      obtain rfl := Option.some.inj hqf
      simpa [mkShadowFinding] using hmin
    · rw [if_neg hl] at hqf
      cases hqf
  rw [hA, hsev, List.nil_append]
  have hkeys : (((config.servers.foldl (registerServer connector) []).map Prod.fst)).Nodup :=
    foldRegister_keys_nodup connector config.servers [] (by simp)
  rw [shadowFindings_filter name _ hkeys]
  have hentry : (recordGet (config.servers.foldl (registerServer connector) []) name).getD [] =
      claimants connector config name := by
    rw [foldRegister_entry connector name config.servers [] hnd]
    rfl
  cases hget : recordGet (config.servers.foldl (registerServer connector) []) name with
  | none =>
    rw [hget] at hentry
    rw [← hentry]
    simp
  | some l =>
    rw [hget] at hentry
    simp only [Option.getD_some] at hentry
    rw [← hentry]
    dsimp only
    by_cases hl : 1 < l.length
    · rw [if_pos hl, if_pos (by omega : 2 ≤ l.length)]
    · rw [if_neg hl, if_neg (by omega : ¬ 2 ≤ l.length)]

/-- Witness for claim C6: two stub servers exposing the same tool name
`t` yield exactly the single shadowing finding naming both. -/
theorem claim_C6_amended_witness :
    ((runScan [] (fun _ _ => Except.ok ⟨none, none, none, [⟨"t", none, none⟩]⟩)
        ⟨"c", "p", [("A", ⟨none, none, none, none, none⟩),
                    ("B", ⟨none, none, none, none, none⟩)]⟩
        FindingSeverity.low).1.findings.filter
      (fun f => f.ruleId == "tool-shadowing" && f.tool == some "t")) =
      [mkShadowFinding "t" ["A", "B"]] := by
  rw [claim_C6_amended [] (fun _ _ => Except.ok ⟨none, none, none, [⟨"t", none, none⟩]⟩)
      ⟨"c", "p", [("A", ⟨none, none, none, none, none⟩),
                  ("B", ⟨none, none, none, none, none⟩)]⟩
      FindingSeverity.low "t"
      (fun r hr => absurd hr (List.not_mem_nil r))
      (by decide)
      (fun p _ info hinfo => by
        have h2 : Except.ok (⟨none, none, none, [⟨"t", none, none⟩]⟩ : LiveServerInfo) =
            Except.ok info := hinfo
        cases h2
        decide)]
  decide

/-- Counterexample to claim C6 as stated: with `--min-severity critical`
requested, a tool name claimed by two servers yields NO tool-shadowing
finding at all — the finding's fixed `high` severity is removed by the
final filter, so the "exactly one finding" guarantee does not hold
unconditionally within a run. -/
theorem claim_C6_counterexample :
    2 ≤ (claimants (fun _ _ => Except.ok ⟨none, none, none, [⟨"t", none, none⟩]⟩)
        ⟨"c", "p", [("A", ⟨none, none, none, none, none⟩),
                    ("B", ⟨none, none, none, none, none⟩)]⟩ "t").length ∧
    (runScan builtinConfigRules
        (fun _ _ => Except.ok ⟨none, none, none, [⟨"t", none, none⟩]⟩)
        ⟨"c", "p", [("A", ⟨none, none, none, none, none⟩),
                    ("B", ⟨none, none, none, none, none⟩)]⟩
        FindingSeverity.critical).1.findings = [] := by
  decide

/-! ## Claim C8: a failed connector call isolates one server -/

theorem mem_if_singleton {α : Type _} {en v : α} {c : Prop} [Decidable c]
    (h : en ∈ (if c then [v] else [])) : en = v := by
  split at h
  · exact List.mem_singleton.mp h
  · exact absurd h (List.not_mem_nil en)

theorem if_some_eq {α : Type _} {v en : α} {c : Prop} [Decidable c]
    (h : (if c then some v else none) = some en) : en = v := by
  split at h
  · exact (Option.some.inj h).symm
  · cases h

theorem serverError_key (connector : Connector) (p : String × MCPServerConfig) :
    ∀ q ∈ serverError connector p, q.1 = p.1 := by
  intro q hq
  unfold serverError at hq
  cases hc : connector p.1 p.2 with
  | ok info =>
    rw [hc] at hq
    exact absurd hq (List.not_mem_nil q)
  | error e =>
    rw [hc] at hq
    have hq2 : q ∈ [(p.1, e)] := hq
    rw [List.mem_singleton] at hq2
    rw [hq2]

theorem errors_filter_single (connector : Connector) (s e : String)
    (cfgS : MCPServerConfig) (hfail : connector s cfgS = .error e) :
    ∀ (servers : List (String × MCPServerConfig)),
    (servers.map Prod.fst).Nodup → (s, cfgS) ∈ servers →
    (servers.flatMap (serverError connector)).filter (fun q => q.1 == s) = [(s, e)]
  | [], _, hmem => absurd hmem (List.not_mem_nil _)
  | p :: ps, hnd, hmem => by
    obtain ⟨hhead, htail⟩ := List.nodup_cons.mp hnd
    rw [List.flatMap_cons, List.filter_append]
    rcases List.mem_cons.mp hmem with heq | hmem2
    · have hp1 : p.1 = s := by rw [← heq]
      have hp2 : p.2 = cfgS := by rw [← heq]
      have hfp : connector p.1 p.2 = .error e := by rw [hp1, hp2]; exact hfail
      have hserr : serverError connector p = [(p.1, e)] := by
        unfold serverError
        rw [hfp]
      have htl : (ps.flatMap (serverError connector)).filter (fun q => q.1 == s) = [] := by
        rw [List.filter_eq_nil_iff]
        intro q hq
        obtain ⟨r, hr, hqr⟩ := List.mem_flatMap.mp hq
        have hk := serverError_key connector r q hqr
        have hne : r.1 ≠ s := by
          intro hc
          refine hhead ?_
          rw [hp1, ← hc]
          exact List.mem_map_of_mem Prod.fst hr
        simp [hk, hne]
      rw [hserr, htl, List.append_nil, hp1]
      simp
    · have hp1 : p.1 ≠ s := by
        intro hc
        have hsin : s ∈ ps.map Prod.fst := List.mem_map_of_mem Prod.fst hmem2
        exact hhead (hc ▸ hsin)
      have hheadnil : (serverError connector p).filter (fun q => q.1 == s) = [] := by
        rw [List.filter_eq_nil_iff]
        intro q hq
        have hk := serverError_key connector p q hq
        simp [hk, hp1]
      rw [hheadnil, List.nil_append]
      exact errors_filter_single connector s e cfgS hfail ps htail hmem2

theorem findings_filter_server (rules : List Rule) (connector : Connector)
    (minSev : FindingSeverity) (s : String) (cfgS : MCPServerConfig) (e : String)
    (hattr : ∀ r ∈ rules, ∀ ctx fs, r.check ctx = some fs → ∀ f ∈ fs,
      f.server = ctx.serverName)
    (hno : ∀ r ∈ rules, ∀ ctx fs, r.check ctx = some fs → ∀ f ∈ fs,
      f.ruleId ≠ "tool-shadowing")
    (hfail : connector s cfgS = .error e) :
    ∀ (servers : List (String × MCPServerConfig)),
    (servers.map Prod.fst).Nodup → (s, cfgS) ∈ servers →
    ((servers.flatMap (serverFindings rules connector)).filter
        (fun f => decide (severityIdx minSev ≤ severityIdx f.severity))).filter
      (fun f => f.server == s && !(f.ruleId == "tool-shadowing")) =
    (configRuleFindings rules s cfgS).filter
      (fun f => decide (severityIdx minSev ≤ severityIdx f.severity))
  | [], _, hmem => absurd hmem (List.not_mem_nil _)
  | p :: ps, hnd, hmem => by
    obtain ⟨hhead, htail⟩ := List.nodup_cons.mp hnd
    rw [List.flatMap_cons, List.filter_append, List.filter_append]
    rcases List.mem_cons.mp hmem with heq | hmem2
    · have hp1 : p.1 = s := by rw [← heq]
      have hp2 : p.2 = cfgS := by rw [← heq]
      have hfp : connector p.1 p.2 = .error e := by rw [hp1, hp2]; exact hfail
      have hsf : serverFindings rules connector p = configRuleFindings rules p.1 p.2 := by
        unfold serverFindings
        rw [hfp, List.append_nil]
      have hkeep : ((configRuleFindings rules p.1 p.2).filter
          (fun f => decide (severityIdx minSev ≤ severityIdx f.severity))).filter
            (fun f => f.server == s && !(f.ruleId == "tool-shadowing")) =
          (configRuleFindings rules p.1 p.2).filter
            (fun f => decide (severityIdx minSev ≤ severityIdx f.severity)) := by
        rw [List.filter_eq_self]
        intro f hf
        have hf2 := (List.mem_filter.mp hf).1
        have hserv : f.server = p.1 :=
          configRuleFindings_prop rules (fun f n => f.server = n)
            (fun r hr ctx fs hc f hf => hattr r hr ctx fs hc f hf) p.1 p.2 f hf2
        have hrid : f.ruleId ≠ "tool-shadowing" :=
          configRuleFindings_prop rules (fun f _ => f.ruleId ≠ "tool-shadowing")
            (fun r hr ctx fs hc f hf => hno r hr ctx fs hc f hf) p.1 p.2 f hf2
        simp [hserv, hp1, hrid]
      have htl : ((ps.flatMap (serverFindings rules connector)).filter
          (fun f => decide (severityIdx minSev ≤ severityIdx f.severity))).filter
            (fun f => f.server == s && !(f.ruleId == "tool-shadowing")) = [] := by
        rw [List.filter_eq_nil_iff]
        intro f hf
        obtain ⟨r, hr, hrf⟩ := List.mem_flatMap.mp (List.mem_filter.mp hf).1
        have hserv : f.server = r.1 :=
          serverFindings_prop rules connector (fun f n => f.server = n)
            (fun r hr ctx fs hc f hf => hattr r hr ctx fs hc f hf) r f hrf
        have hr1 : r.1 ≠ s := by
          intro hc
          refine hhead ?_
          rw [hp1, ← hc]
          exact List.mem_map_of_mem Prod.fst hr
        simp [hserv, hr1]
      rw [hsf, hkeep, htl, List.append_nil, hp1, hp2]
    · have hp1 : p.1 ≠ s := by
        intro hc
        have hsin : s ∈ ps.map Prod.fst := List.mem_map_of_mem Prod.fst hmem2
        exact hhead (hc ▸ hsin)
      have hheadnil : ((serverFindings rules connector p).filter
          (fun f => decide (severityIdx minSev ≤ severityIdx f.severity))).filter
            (fun f => f.server == s && !(f.ruleId == "tool-shadowing")) = [] := by
        rw [List.filter_eq_nil_iff]
        intro f hf
        have hserv : f.server = p.1 :=
          serverFindings_prop rules connector (fun f n => f.server = n)
            (fun r hr ctx fs hc f hf => hattr r hr ctx fs hc f hf) p f
            (List.mem_filter.mp hf).1
        simp [hserv, hp1]
      rw [hheadnil, List.nil_append]
      exact findings_filter_server rules connector minSev s cfgS e hattr hno hfail
        ps htail hmem2

theorem diffServerTools_server (sha : String → String) (n : String)
    (locked : LockfileServer) (live : LiveServerInfo) :
    ∀ en ∈ diffServerTools sha n locked live, en.server = n := by
  intro en hen
  simp only [diffServerTools, List.mem_append] at hen
  rcases hen with (((h | h) | h) | h) | h
  · rw [mem_if_singleton h]
  · rw [mem_if_singleton h]
  · obtain ⟨p, hp, hpf⟩ := List.mem_filterMap.mp h
    rw [if_some_eq hpf]
  · obtain ⟨t, ht, htf⟩ := List.mem_filterMap.mp h
    rw [if_some_eq htf]
  · obtain ⟨p, hp, hpf⟩ := List.mem_flatMap.mp h
    cases hml : mapGetLast live.tools p.1 with
    | none =>
      rw [hml] at hpf
      exact absurd hpf (List.not_mem_nil en)
    | some lt =>
      rw [hml] at hpf
      simp only [List.mem_append] at hpf
      rcases hpf with (h2 | h2) | h2
      · rw [mem_if_singleton h2]
      · rw [mem_if_singleton h2]
      · rw [mem_if_singleton h2]

theorem perServer_error_key (connector : Connector) (config : MCPConfig)
    (sha : String → String) (r : String × LockfileServer) :
    ∀ q ∈ (match recordGet config.servers r.1 with
      | none => (([] : List DiffEntry), ([] : List (String × String)))
      | some currentConfig =>
        match connector r.1 currentConfig with
        | .ok liveInfo => (diffServerTools sha r.1 r.2 liveInfo, ([] : List (String × String)))
        | .error err => (([] : List DiffEntry), [(r.1, err)])).2, q.1 = r.1 := by
  intro q hq
  cases hx : recordGet config.servers r.1 with
  | none =>
    rw [hx] at hq
    exact absurd hq (List.not_mem_nil q)
  | some c =>
    rw [hx] at hq
    dsimp only at hq
    cases hy : connector r.1 c with
    | ok info =>
      rw [hy] at hq
      exact absurd hq (List.not_mem_nil q)
    | error err =>
      rw [hy] at hq
      have hq2 : q ∈ [(r.1, err)] := hq
      rw [List.mem_singleton] at hq2
      rw [hq2]

theorem perServer_entry_server (connector : Connector) (config : MCPConfig)
    (sha : String → String) (r : String × LockfileServer) :
    ∀ en ∈ (match recordGet config.servers r.1 with
      | none => (([] : List DiffEntry), ([] : List (String × String)))
      | some currentConfig =>
        match connector r.1 currentConfig with
        | .ok liveInfo => (diffServerTools sha r.1 r.2 liveInfo, ([] : List (String × String)))
        | .error err => (([] : List DiffEntry), [(r.1, err)])).1, en.server = r.1 := by
  intro en hen
  cases hx : recordGet config.servers r.1 with
  | none =>
    rw [hx] at hen
    exact absurd hen (List.not_mem_nil en)
  | some c =>
    rw [hx] at hen
    dsimp only at hen
    cases hy : connector r.1 c with
    | ok info =>
      rw [hy] at hen
      exact diffServerTools_server sha r.1 r.2 info en hen
    | error err =>
      rw [hy] at hen
      exact absurd hen (List.not_mem_nil en)

theorem diff_errors_filter (sha : String → String) (connector : Connector)
    (config : MCPConfig) (s : String) (cfgS : MCPServerConfig) (e : String)
    (hget : recordGet config.servers s = some cfgS)
    (hfail : connector s cfgS = .error e) :
    ∀ (ls : List (String × LockfileServer)), (ls.map Prod.fst).Nodup →
    s ∈ ls.map Prod.fst →
    ((((ls.map (fun p =>
        match recordGet config.servers p.1 with
        | none => (([] : List DiffEntry), ([] : List (String × String)))
        | some currentConfig =>
          match connector p.1 currentConfig with
          | .ok liveInfo => (diffServerTools sha p.1 p.2 liveInfo, ([] : List (String × String)))
          | .error err => (([] : List DiffEntry), [(p.1, err)]))).map
        (fun q => q.2)).flatten).filter (fun q => q.1 == s)) = [(s, e)]
  | [], _, hmem => absurd hmem (List.not_mem_nil _)
  | p :: ps, hnd, hmem => by
    obtain ⟨hhead, htail⟩ := List.nodup_cons.mp hnd
    rw [List.map_cons, List.map_cons, List.flatten_cons, List.filter_append]
    rcases List.mem_cons.mp hmem with heq | hmem2
    · have hgetp : recordGet config.servers p.1 = some cfgS := by rw [← heq]; exact hget
      have hfp : connector p.1 cfgS = .error e := by rw [← heq]; exact hfail
      have hhd : (match recordGet config.servers p.1 with
          | none => (([] : List DiffEntry), ([] : List (String × String)))
          | some currentConfig =>
            match connector p.1 currentConfig with
            | .ok liveInfo =>
              (diffServerTools sha p.1 p.2 liveInfo, ([] : List (String × String)))
            | .error err => (([] : List DiffEntry), [(p.1, err)])).2 = [(p.1, e)] := by
        rw [hgetp]
        dsimp only
        rw [hfp]
      have htl : ((((ps.map (fun p =>
          match recordGet config.servers p.1 with
          | none => (([] : List DiffEntry), ([] : List (String × String)))
          | some currentConfig =>
            match connector p.1 currentConfig with
            | .ok liveInfo =>
              (diffServerTools sha p.1 p.2 liveInfo, ([] : List (String × String)))
            | .error err => (([] : List DiffEntry), [(p.1, err)]))).map
          (fun q => q.2)).flatten).filter (fun q => q.1 == s)) = [] := by
        rw [List.filter_eq_nil_iff]
        intro q hq
        obtain ⟨l2, hl2, hql⟩ := List.mem_flatten.mp hq
        rw [List.map_map] at hl2
        obtain ⟨r, hr, hfl2⟩ := List.mem_map.mp hl2
        rw [← hfl2] at hql
        have hk := perServer_error_key connector config sha r q hql
        have hne : r.1 ≠ s := by
          intro hc
          refine hhead ?_
          rw [← heq, ← hc]
          exact List.mem_map_of_mem Prod.fst hr
        simp [hk, hne]
      rw [hhd, htl, List.append_nil, ← heq]
      simp
    · have hp1 : p.1 ≠ s := by
        intro hc
        exact hhead (hc ▸ hmem2)
      have hhdnil : ((match recordGet config.servers p.1 with
          | none => (([] : List DiffEntry), ([] : List (String × String)))
          | some currentConfig =>
            match connector p.1 currentConfig with
            | .ok liveInfo =>
              (diffServerTools sha p.1 p.2 liveInfo, ([] : List (String × String)))
            | .error err => (([] : List DiffEntry), [(p.1, err)])).2).filter
            (fun q : String × String => q.1 == s) = [] := by
        rw [List.filter_eq_nil_iff]
        intro q hq
        have hk := perServer_error_key connector config sha p q hq
        simp [hk, hp1]
      rw [hhdnil, List.nil_append]
      exact diff_errors_filter sha connector config s cfgS e hget hfail ps htail hmem2

/-- Claim C8 (corrected): a server whose connector call fails contributes
exactly one (server, error) pair to both the scan and the diff run, its
tool-level analysis is skipped, it produces no diff entries, and every
other server's results are unchanged if its connector behaviour is
replaced — but it does NOT produce "no findings": the config-scope rules
run before the connection is attempted, so the failed server still
receives its severity-filtered config-rule findings (see the
counterexample).  Hypotheses: rules attribute findings to the context
server and never forge the reserved `tool-shadowing` id, and server names
are unique on both sides (JS object keys). -/
theorem claim_C8_amended (rules : List Rule) (connector connector' : Connector)
    (sha : String → String) (lockfile : Lockfile) (config : MCPConfig)
    (minSev : FindingSeverity) (s : String) (cfgS : MCPServerConfig) (e : String)
    (hcfg : (s, cfgS) ∈ config.servers)
    (hndc : (config.servers.map Prod.fst).Nodup)
    (hndl : (lockfile.servers.map Prod.fst).Nodup)
    (hsl : s ∈ lockfile.servers.map Prod.fst)
    (hfail : connector s cfgS = .error e)
    (hattr : ∀ r ∈ rules, ∀ ctx fs, r.check ctx = some fs → ∀ f ∈ fs,
      f.server = ctx.serverName)
    (hno : ∀ r ∈ rules, ∀ ctx fs, r.check ctx = some fs → ∀ f ∈ fs,
      f.ruleId ≠ "tool-shadowing")
    (hagree : ∀ n cfg, n ≠ s → connector' n cfg = connector n cfg) :
    ((runScan rules connector config minSev).2.filter (fun q => q.1 == s) = [(s, e)]) ∧
    ((runScan rules connector config minSev).1.findings.filter
        (fun f => f.server == s && !(f.ruleId == "tool-shadowing")) =
      severityFilter minSev (configRuleFindings rules s cfgS)) ∧
    ((computeDiff sha connector lockfile config true).2.filter
        (fun q => q.1 == s) = [(s, e)]) ∧
    ((computeDiff sha connector lockfile config true).1.entries.filter
        (fun en => en.server == s) = []) ∧
    ((runScan rules connector config minSev).1.findings.filter
        (fun f => !(f.server == s) && !(f.ruleId == "tool-shadowing")) =
      (runScan rules connector' config minSev).1.findings.filter
        (fun f => !(f.server == s) && !(f.ruleId == "tool-shadowing"))) ∧
    ((computeDiff sha connector lockfile config true).1.entries.filter
        (fun en => !(en.server == s)) =
      (computeDiff sha connector' lockfile config true).1.entries.filter
        (fun en => !(en.server == s))) := by
  have hgetS : recordGet config.servers s = some cfgS :=
    recordGet_of_mem_nodup hndc hcfg
  obtain ⟨r0, hr0, hr0s⟩ := List.mem_map.mp hsl
  have hgetL : recordGet lockfile.servers s = some r0.2 := by
    rw [← hr0s]
    exact recordGet_of_mem_nodup hndl hr0
  refine ⟨?_, ?_, ?_, ?_, ?_, ?_⟩
  · -- scan errors
    have hrunE : (runScan rules connector config minSev).2 =
        config.servers.flatMap (serverError connector) := rfl
    rw [hrunE]
    exact errors_filter_single connector s e cfgS hfail config.servers hndc hcfg
  · -- scan findings for s: config-scope findings survive
    have hrunF : (runScan rules connector config minSev).1.findings =
        severityFilter minSev
          (config.servers.flatMap (serverFindings rules connector) ++
            (config.servers.foldl (registerServer connector) []).filterMap (fun p =>
              if 1 < p.2.length then some (mkShadowFinding p.1 p.2) else none)) := rfl
    rw [hrunF]
    unfold severityFilter
    rw [List.filter_append, List.filter_append]
    have hB : (((config.servers.foldl (registerServer connector) []).filterMap (fun p =>
        if 1 < p.2.length then some (mkShadowFinding p.1 p.2) else none)).filter
          (fun f => decide (severityIdx minSev ≤ severityIdx f.severity))).filter
        (fun f => f.server == s && !(f.ruleId == "tool-shadowing")) = [] := by
      rw [List.filter_eq_nil_iff]
      intro f hf
      obtain ⟨q, hq, hqf⟩ := List.mem_filterMap.mp (List.mem_filter.mp hf).1
      by_cases hl : 1 < q.2.length
      · rw [if_pos hl] at hqf
        obtain rfl := Option.some.inj hqf
        simp [mkShadowFinding]
      · rw [if_neg hl] at hqf
        cases hqf
    rw [hB, List.append_nil]
    exact findings_filter_server rules connector minSev s cfgS e hattr hno hfail
      config.servers hndc hcfg
  · -- diff errors
    exact diff_errors_filter sha connector config s cfgS e hgetS hfail
      lockfile.servers hndl hsl
  · -- diff entries for s
    have hent : (computeDiff sha connector lockfile config true).1.entries =
        lockfile.servers.filterMap (fun p =>
          if (recordGet config.servers p.1).isNone then
            some { server := p.1, tool := none, type := .serverRemoved,
                   severity := .warning
                   detail := "Server \"" ++ p.1 ++ "\" was removed from config"
                   oldValue := none, newValue := none }
          else none) ++
        config.servers.filterMap (fun p =>
          if (recordGet lockfile.servers p.1).isNone then
            some { server := p.1, tool := none, type := .serverAdded,
                   severity := .warning
                   detail := "Server \"" ++ p.1 ++ "\" was added to config (not pinned)"
                   oldValue := none, newValue := none }
          else none) ++
        ((lockfile.servers.map (fun p =>
          match recordGet config.servers p.1 with
          | none => (([] : List DiffEntry), ([] : List (String × String)))
          | some currentConfig =>
            match connector p.1 currentConfig with
            | .ok liveInfo =>
              (diffServerTools sha p.1 p.2 liveInfo, ([] : List (String × String)))
            | .error err => (([] : List DiffEntry), [(p.1, err)]))).map
          (fun q => q.1)).flatten := rfl
    rw [hent, List.filter_append, List.filter_append]
    have hrem : (lockfile.servers.filterMap (fun p =>
        if (recordGet config.servers p.1).isNone then
          some ({ server := p.1, tool := none, type := DiffType.serverRemoved,
                  severity := DiffSeverity.warning
                  detail := "Server \"" ++ p.1 ++ "\" was removed from config"
                  oldValue := none, newValue := none } : DiffEntry)
        else none)).filter (fun en => en.server == s) = [] := by
      rw [List.filter_eq_nil_iff]
      intro en hen
      obtain ⟨p, hp, hpf⟩ := List.mem_filterMap.mp hen
      by_cases hc : (recordGet config.servers p.1).isNone = true
      · rw [if_pos hc] at hpf
        obtain rfl := Option.some.inj hpf
        have hp1 : p.1 ≠ s := by
          intro hq
          rw [hq, hgetS] at hc
          simp at hc
        simp [hp1]
      · rw [if_neg hc] at hpf
        cases hpf
    have hadd : (config.servers.filterMap (fun p =>
        if (recordGet lockfile.servers p.1).isNone then
          some ({ server := p.1, tool := none, type := DiffType.serverAdded,
                  severity := DiffSeverity.warning
                  detail := "Server \"" ++ p.1 ++ "\" was added to config (not pinned)"
                  oldValue := none, newValue := none } : DiffEntry)
        else none)).filter (fun en => en.server == s) = [] := by
      rw [List.filter_eq_nil_iff]
      intro en hen
      obtain ⟨p, hp, hpf⟩ := List.mem_filterMap.mp hen
      by_cases hc : (recordGet lockfile.servers p.1).isNone = true
      · rw [if_pos hc] at hpf
        obtain rfl := Option.some.inj hpf
        have hp1 : p.1 ≠ s := by
          intro hq
          rw [hq, hgetL] at hc
          simp at hc
        simp [hp1]
      · rw [if_neg hc] at hpf
        cases hpf
    have hper : (((lockfile.servers.map (fun p =>
        match recordGet config.servers p.1 with
        | none => (([] : List DiffEntry), ([] : List (String × String)))
        | some currentConfig =>
          match connector p.1 currentConfig with
          | .ok liveInfo =>
            (diffServerTools sha p.1 p.2 liveInfo, ([] : List (String × String)))
          | .error err => (([] : List DiffEntry), [(p.1, err)]))).map
        (fun q => q.1)).flatten).filter (fun en => en.server == s) = [] := by
      rw [List.filter_eq_nil_iff]
      intro en hen
      obtain ⟨l2, hl2, hql⟩ := List.mem_flatten.mp hen
      rw [List.map_map] at hl2
      obtain ⟨r, hr, hfl2⟩ := List.mem_map.mp hl2
      rw [← hfl2] at hql
      by_cases hrs : r.1 = s
      · have hgr : recordGet config.servers r.1 = some cfgS := by rw [hrs]; exact hgetS
        have hql2 : en ∈ (match recordGet config.servers r.1 with
            | none => (([] : List DiffEntry), ([] : List (String × String)))
            | some currentConfig =>
              match connector r.1 currentConfig with
              | .ok liveInfo =>
                (diffServerTools sha r.1 r.2 liveInfo, ([] : List (String × String)))
              | .error err => (([] : List DiffEntry), [(r.1, err)])).1 := hql
        rw [hgr] at hql2
        have hfr : connector r.1 cfgS = .error e := by rw [hrs]; exact hfail
        have hql3 : en ∈ (match connector r.1 cfgS with
            | .ok liveInfo =>
              (diffServerTools sha r.1 r.2 liveInfo, ([] : List (String × String)))
            | .error err => (([] : List DiffEntry), [(r.1, err)])).1 := hql2
        rw [hfr] at hql3
        exact absurd hql3 (List.not_mem_nil en)
      · have hk : en.server = r.1 := perServer_entry_server connector config sha r en hql
        simp [hk, hrs]
    rw [hrem, hadd, hper]
    rfl
  · -- other servers' scan findings unchanged
    have hrunF : (runScan rules connector config minSev).1.findings =
        severityFilter minSev
          (config.servers.flatMap (serverFindings rules connector) ++
            (config.servers.foldl (registerServer connector) []).filterMap (fun p =>
              if 1 < p.2.length then some (mkShadowFinding p.1 p.2) else none)) := rfl
    have hrunF' : (runScan rules connector' config minSev).1.findings =
        severityFilter minSev
          (config.servers.flatMap (serverFindings rules connector') ++
            (config.servers.foldl (registerServer connector') []).filterMap (fun p =>
              if 1 < p.2.length then some (mkShadowFinding p.1 p.2) else none)) := rfl
    rw [hrunF, hrunF']
    unfold severityFilter
    rw [List.filter_append, List.filter_append, List.filter_append, List.filter_append]
    have hBgen : ∀ conn2 : Connector,
        (((config.servers.foldl (registerServer conn2) []).filterMap (fun p =>
          if 1 < p.2.length then some (mkShadowFinding p.1 p.2) else none)).filter
            (fun f => decide (severityIdx minSev ≤ severityIdx f.severity))).filter
          (fun f => !(f.server == s) && !(f.ruleId == "tool-shadowing")) = [] := by
      intro conn2
      rw [List.filter_eq_nil_iff]
      intro f hf
      obtain ⟨q, hq, hqf⟩ := List.mem_filterMap.mp (List.mem_filter.mp hf).1
      by_cases hl : 1 < q.2.length
      · rw [if_pos hl] at hqf
        obtain rfl := Option.some.inj hqf
        simp [mkShadowFinding]
      · rw [if_neg hl] at hqf
        cases hqf
    rw [hBgen connector, hBgen connector', List.append_nil, List.append_nil]
    have hApart : ∀ (servers : List (String × MCPServerConfig)),
        ((servers.flatMap (serverFindings rules connector)).filter
            (fun f => decide (severityIdx minSev ≤ severityIdx f.severity))).filter
          (fun f => !(f.server == s) && !(f.ruleId == "tool-shadowing")) =
        ((servers.flatMap (serverFindings rules connector')).filter
            (fun f => decide (severityIdx minSev ≤ severityIdx f.severity))).filter
          (fun f => !(f.server == s) && !(f.ruleId == "tool-shadowing")) := by
      intro servers
      induction servers with
      | nil => rfl
      | cons p ps ih =>
        rw [List.flatMap_cons, List.flatMap_cons, List.filter_append, List.filter_append,
            List.filter_append, List.filter_append, ih]
        congr 1
        by_cases hps : p.1 = s
        · have h1 : ∀ conn2 : Connector,
              ((serverFindings rules conn2 p).filter
                  (fun f => decide (severityIdx minSev ≤ severityIdx f.severity))).filter
                (fun f => !(f.server == s) && !(f.ruleId == "tool-shadowing")) = [] := by
            intro conn2
            rw [List.filter_eq_nil_iff]
            intro f hf
            have hserv : f.server = p.1 :=
              serverFindings_prop rules conn2 (fun f n => f.server = n)
                (fun r hr ctx fs hc f hf => hattr r hr ctx fs hc f hf) p f
                (List.mem_filter.mp hf).1
            simp [hserv, hps]
          rw [h1 connector, h1 connector']
        · have hsf : serverFindings rules connector' p = serverFindings rules connector p := by
            unfold serverFindings
            rw [hagree p.1 p.2 hps]
          rw [hsf]
    exact hApart config.servers
  · -- other servers' diff entries unchanged
    have hperKey : ∀ (conn2 : Connector) (r : String × LockfileServer),
        ∀ en ∈ (match recordGet config.servers r.1 with
          | none => (([] : List DiffEntry), ([] : List (String × String)))
          | some currentConfig =>
            match conn2 r.1 currentConfig with
            | .ok liveInfo =>
              (diffServerTools sha r.1 r.2 liveInfo, ([] : List (String × String)))
            | .error err => (([] : List DiffEntry), [(r.1, err)])).1, en.server = r.1 :=
      fun conn2 r => perServer_entry_server conn2 config sha r
    have hDpart : ∀ (ls : List (String × LockfileServer)),
        ((((ls.map (fun p =>
          match recordGet config.servers p.1 with
          | none => (([] : List DiffEntry), ([] : List (String × String)))
          | some currentConfig =>
            match connector p.1 currentConfig with
            | .ok liveInfo =>
              (diffServerTools sha p.1 p.2 liveInfo, ([] : List (String × String)))
            | .error err => (([] : List DiffEntry), [(p.1, err)]))).map
          (fun q => q.1)).flatten).filter (fun en => !(en.server == s))) =
        ((((ls.map (fun p =>
          match recordGet config.servers p.1 with
          | none => (([] : List DiffEntry), ([] : List (String × String)))
          | some currentConfig =>
            match connector' p.1 currentConfig with
            | .ok liveInfo =>
              (diffServerTools sha p.1 p.2 liveInfo, ([] : List (String × String)))
            | .error err => (([] : List DiffEntry), [(p.1, err)]))).map
          (fun q => q.1)).flatten).filter (fun en => !(en.server == s))) := by
      intro ls
      induction ls with
      | nil => rfl
      | cons r rs ih =>
        rw [List.map_cons, List.map_cons, List.map_cons, List.map_cons,
            List.flatten_cons, List.flatten_cons, List.filter_append, List.filter_append,
            ih]
        congr 1
        dsimp only
        by_cases hrs : r.1 = s
        · have h1 : ∀ conn2 : Connector,
              ((match recordGet config.servers r.1 with
                | none => (([] : List DiffEntry), ([] : List (String × String)))
                | some currentConfig =>
                  match conn2 r.1 currentConfig with
                  | .ok liveInfo =>
                    (diffServerTools sha r.1 r.2 liveInfo, ([] : List (String × String)))
                  | .error err => (([] : List DiffEntry), [(r.1, err)])).1).filter
                (fun en : DiffEntry => !(en.server == s)) = [] := by
            intro conn2
            rw [List.filter_eq_nil_iff]
            intro en hen
            have hk := hperKey conn2 r en hen
            simp [hk, hrs]
          rw [h1 connector, h1 connector']
        · cases hx : recordGet config.servers r.1 with
          | none => rfl
          | some c =>
            dsimp only
            rw [hagree r.1 c hrs]
    have hentC : (computeDiff sha connector lockfile config true).1.entries.filter
        (fun en => !(en.server == s)) =
        List.filter (fun en : DiffEntry => !(en.server == s))
        (lockfile.servers.filterMap (fun p =>
          if (recordGet config.servers p.1).isNone then
            some ({ server := p.1, tool := none, type := DiffType.serverRemoved,
                    severity := DiffSeverity.warning
                    detail := "Server \"" ++ p.1 ++ "\" was removed from config"
                    oldValue := none, newValue := none } : DiffEntry)
          else none) ++
        config.servers.filterMap (fun p =>
          if (recordGet lockfile.servers p.1).isNone then
            some ({ server := p.1, tool := none, type := DiffType.serverAdded,
                    severity := DiffSeverity.warning
                    detail := "Server \"" ++ p.1 ++ "\" was added to config (not pinned)"
                    oldValue := none, newValue := none } : DiffEntry)
          else none) ++
        ((lockfile.servers.map (fun p =>
          match recordGet config.servers p.1 with
          | none => (([] : List DiffEntry), ([] : List (String × String)))
          | some currentConfig =>
            match connector p.1 currentConfig with
            | .ok liveInfo =>
              (diffServerTools sha p.1 p.2 liveInfo, ([] : List (String × String)))
            | .error err => (([] : List DiffEntry), [(p.1, err)]))).map
          (fun q => q.1)).flatten) := rfl
    have hentC' : (computeDiff sha connector' lockfile config true).1.entries.filter
        (fun en => !(en.server == s)) =
        List.filter (fun en : DiffEntry => !(en.server == s))
        (lockfile.servers.filterMap (fun p =>
          if (recordGet config.servers p.1).isNone then
            some ({ server := p.1, tool := none, type := DiffType.serverRemoved,
                    severity := DiffSeverity.warning
                    detail := "Server \"" ++ p.1 ++ "\" was removed from config"
                    oldValue := none, newValue := none } : DiffEntry)
          else none) ++
        config.servers.filterMap (fun p =>
          if (recordGet lockfile.servers p.1).isNone then
            some ({ server := p.1, tool := none, type := DiffType.serverAdded,
                    severity := DiffSeverity.warning
                    detail := "Server \"" ++ p.1 ++ "\" was added to config (not pinned)"
                    oldValue := none, newValue := none } : DiffEntry)
          else none) ++
        ((lockfile.servers.map (fun p =>
          match recordGet config.servers p.1 with
          | none => (([] : List DiffEntry), ([] : List (String × String)))
          | some currentConfig =>
            match connector' p.1 currentConfig with
            | .ok liveInfo =>
              (diffServerTools sha p.1 p.2 liveInfo, ([] : List (String × String)))
            | .error err => (([] : List DiffEntry), [(p.1, err)]))).map
          (fun q => q.1)).flatten) := rfl
    rw [hentC, hentC', List.filter_append, List.filter_append, List.filter_append,
        List.filter_append, hDpart lockfile.servers]

/-- Counterexample to claim C8 as stated: a server launched through a raw
shell whose connector call fails still yields the `unsafe-stdio` config
finding — the failed call records the (server, error) pair but does not
suppress that server's config-scope findings. -/
theorem claim_C8_counterexample :
    (runScan builtinConfigRules (fun _ _ => Except.error "boom")
        ⟨"c", "p", [("srv", ⟨none, some "bash", none, none, none⟩)]⟩
        FindingSeverity.low).2 = [("srv", "boom")] ∧
    ((runScan builtinConfigRules (fun _ _ => Except.error "boom")
        ⟨"c", "p", [("srv", ⟨none, some "bash", none, none, none⟩)]⟩
        FindingSeverity.low).1.findings.map (fun f => (f.ruleId, f.server))) =
      [("unsafe-stdio", "srv")] := by
  decide

/-- Witness for claim C8: a single stub server with a failing connector is
isolated to its one error pair in the scan error stream. -/
theorem claim_C8_amended_witness :
    ((runScan [] (fun _ _ => Except.error "E")
        ⟨"c", "p", [("s", ⟨none, none, none, none, none⟩)]⟩
        FindingSeverity.low).2.filter (fun q => q.1 == "s")) = [("s", "E")] :=
  (claim_C8_amended [] (fun _ _ => Except.error "E") (fun _ _ => Except.error "E") id
      ⟨1, "", "", "", "",
        [("s", ⟨"stdio", none, none, none, none, none, none, none, [], 0⟩)]⟩
      ⟨"c", "p", [("s", ⟨none, none, none, none, none⟩)]⟩
      FindingSeverity.low "s" ⟨none, none, none, none, none⟩ "E"
      (by decide) (by decide) (by decide) (by decide) rfl
      (fun r hr => absurd hr (List.not_mem_nil r))
      (fun r hr => absurd hr (List.not_mem_nil r))
      (fun _ _ _ => rfl)).1

end MCPLock
